import Mathlib

/-!
Verification of the match-3 board engine of this repository.

The development shallowly embeds the three core scripts:
* MatchValidator.ts  — match detection over a playability-masked grid,
  swap validation and the valid-move search;
* Match3Game.ts      — the game controller of the base revision: initial
  generation, match scan, gravity, fill, cascade, swap and rotation flow;
* GravityManager.ts  — the collect-and-place directional gravity passes.

Grids are lists of rows of optional gems; the incremental RNG of the game
is embedded as a stream of naturals consumed at an explicit cursor, and
the unbounded loops of the sources (the generation rejection loop, the
gravity-until-settled loop, the cascade loop) take an explicit fuel
argument, returning none when the fuel runs out.
-/

namespace Match3

/-- A gem as far as the engine logic reads it: its type index (Gem.ts
stores a type together with presentation-only row and col
back-references; the grid slot is the authoritative position). -/
structure Gem where
  type : Nat
deriving DecidableEq, Repr

/-- A board: row-major list of rows, each row a list of optional gems
(a slot of the grid array of Match3Game.ts or MatchValidator.ts). -/
abbrev Grid := List (List (Option Gem))

/-- The playability pattern: row-major list of rows of flags, true for a
playable cell (pattern value 1) and false for a blocked cell (value 0). -/
abbrev Mask := List (List Bool)

/-- Reading the grid slot at row r, column c; an out-of-range access is
the undefined slot of the source arrays, embedded as none. -/
def cellAt (grid : Grid) (r c : Nat) : Option Gem :=
  ((grid[r]?).bind fun row => row[c]?).join

/-- The gem type stored at a slot, if the slot holds a gem. -/
def typeAt (grid : Grid) (r c : Nat) : Option Nat :=
  (cellAt grid r c).map Gem.type

/-- Reading the playability flag at row r, column c. -/
def maskAt (mask : Mask) (r c : Nat) : Bool :=
  ((mask[r]?).bind fun row => row[c]?).getD false

/-- Writing one grid slot; out-of-range writes are dropped (they are
never reached by the embedded operations). -/
def setCell (grid : Grid) (r c : Nat) (v : Option Gem) : Grid :=
  match grid[r]? with
  | some row => grid.set r (row.set c v)
  | none => grid

/-! ### MatchValidator.ts -/

/-- MatchValidator.findAllMatches, inner horizontal loop: the number of
consecutive cells counted from column i on row r that are playable,
occupied and typed t; a blocked, empty or differently typed cell breaks
the scan.  The fuel is the remaining column count of the loop bound. -/
def mvRunH (grid : Grid) (mask : Mask) (r t : Nat) : Nat → Nat → Nat
  | _, 0 => 0
  | i, fuel + 1 =>
    if maskAt mask r i = false then 0
    else if typeAt grid r i = some t then 1 + mvRunH grid mask r t (i + 1) fuel
    else 0

/-- MatchValidator.findAllMatches, inner vertical loop (mirror of
mvRunH down column c). -/
def mvRunV (grid : Grid) (mask : Mask) (c t : Nat) : Nat → Nat → Nat
  | _, 0 => 0
  | i, fuel + 1 =>
    if maskAt mask i c = false then 0
    else if typeAt grid i c = some t then 1 + mvRunV grid mask c t (i + 1) fuel
    else 0

/-- The set of slots a horizontal scan start at (r, c) contributes to
the match set of MatchValidator.findAllMatches: when the start cell is
occupied and playable and its run has length at least 3, all members of
the run. -/
def mvHorizAt (grid : Grid) (mask : Mask) (cols r c : Nat) : Finset (Nat × Nat) :=
  match typeAt grid r c with
  | none => ∅
  | some t =>
    if maskAt mask r c = false then ∅
    else
      let len := 1 + mvRunH grid mask r t (c + 1) (cols - (c + 1))
      if 3 ≤ len then ((List.range len).map fun j => (r, c + j)).toFinset else ∅

/-- The slots a vertical scan start contributes (mirror of mvHorizAt). -/
def mvVertAt (grid : Grid) (mask : Mask) (rows c r : Nat) : Finset (Nat × Nat) :=
  match typeAt grid r c with
  | none => ∅
  | some t =>
    if maskAt mask r c = false then ∅
    else
      let len := 1 + mvRunV grid mask c t (r + 1) (rows - (r + 1))
      if 3 ≤ len then ((List.range len).map fun j => (r + j, c)).toFinset else ∅

/-- MatchValidator.findAllMatches: the deduplicated set of slots of all
gems belonging to a horizontal or vertical run of length at least 3
(the source deduplicates by node identity in a Set; a node corresponds
to its unique grid slot). -/
def findAllMatchesMV (grid : Grid) (mask : Mask) (rows cols : Nat) : Finset (Nat × Nat) :=
  ((Finset.range rows).biUnion fun r =>
    (Finset.range (cols - 2)).biUnion fun c => mvHorizAt grid mask cols r c) ∪
  ((Finset.range cols).biUnion fun c =>
    (Finset.range (rows - 2)).biUnion fun r => mvVertAt grid mask rows c r)

/-- MatchValidator.checkMatchAtPosition, count to the left: consecutive
cells at columns c-1, c-2, ... that are occupied, playable and typed t.
The scanned position is encoded by its successor so the recursion is
structural; position 0 has nothing to its left. -/
def countLeftH (grid : Grid) (mask : Mask) (r t : Nat) : Nat → Nat
  | 0 => 0
  | c + 1 =>
    if maskAt mask r c && (typeAt grid r c == some t) then 1 + countLeftH grid mask r t c
    else 0

/-- MatchValidator.checkMatchAtPosition, count to the right from column
i with the loop bound cols as remaining fuel. -/
def countRightH (grid : Grid) (mask : Mask) (r t : Nat) : Nat → Nat → Nat
  | _, 0 => 0
  | i, fuel + 1 =>
    if maskAt mask r i && (typeAt grid r i == some t) then 1 + countRightH grid mask r t (i + 1) fuel
    else 0

/-- MatchValidator.checkMatchAtPosition, count upward (rows below index
r, encoded by successor like countLeftH). -/
def countUpV (grid : Grid) (mask : Mask) (c t : Nat) : Nat → Nat
  | 0 => 0
  | r + 1 =>
    if maskAt mask r c && (typeAt grid r c == some t) then 1 + countUpV grid mask c t r
    else 0

/-- MatchValidator.checkMatchAtPosition, count downward from row i. -/
def countDownV (grid : Grid) (mask : Mask) (c t : Nat) : Nat → Nat → Nat
  | _, 0 => 0
  | i, fuel + 1 =>
    if maskAt mask i c && (typeAt grid i c == some t) then 1 + countDownV grid mask c t (i + 1) fuel
    else 0

/-- MatchValidator.checkMatchAtPosition: does a gem of type t at slot
(r, c) belong to a horizontal or vertical run of length at least 3,
expanding through playable occupied same-typed neighbours. -/
def checkMatchAtPosition (grid : Grid) (mask : Mask) (rows cols r c t : Nat) : Bool :=
  let hCount := 1 + countLeftH grid mask r t c + countRightH grid mask r t (c + 1) (cols - (c + 1))
  if 3 ≤ hCount then true
  else
    let vCount := 1 + countUpV grid mask c t r + countDownV grid mask c t (r + 1) (rows - (r + 1))
    3 ≤ vCount

/-- MatchValidator.isValidSwap: tentatively swap the two slots, check a
localized match at both, swap back.  The returned grid is the grid as
the source leaves it after the swap-back, so that restoring the exact
input grid is a provable property rather than an assumption. -/
def isValidSwap (grid : Grid) (mask : Mask) (rows cols r1 c1 r2 c2 : Nat) :
    Bool × Grid :=
  match cellAt grid r1 c1, cellAt grid r2 c2 with
  | some g1, some g2 =>
    if maskAt mask r1 c1 = false ∨ maskAt mask r2 c2 = false then (false, grid)
    else
      let grid1 := setCell (setCell grid r1 c1 (some g2)) r2 c2 (some g1)
      let m1 := checkMatchAtPosition grid1 mask rows cols r1 c1 g2.type
      let m2 := checkMatchAtPosition grid1 mask rows cols r2 c2 g1.type
      let grid2 := setCell (setCell grid1 r1 c1 (some g1)) r2 c2 (some g2)
      (m1 || m2, grid2)
  | _, _ => (false, grid)

/-- The candidate swaps of MatchValidator.hasValidMoves, in loop order:
all horizontal neighbours, then all vertical neighbours. -/
def swapCandidates (rows cols : Nat) : List (Nat × Nat × Nat × Nat) :=
  ((List.range rows).flatMap fun r =>
    (List.range (cols - 1)).map fun c => (r, c, r, c + 1)) ++
  ((List.range (rows - 1)).flatMap fun r =>
    (List.range cols).map fun c => (r, c, r + 1, c))

/-- The loop body of MatchValidator.hasValidMoves, threading the grid
through the tentative swaps and returning at the first valid one. -/
def hasValidMovesAux (mask : Mask) (rows cols : Nat) :
    Grid → List (Nat × Nat × Nat × Nat) → Bool × Grid
  | grid, [] => (false, grid)
  | grid, (r1, c1, r2, c2) :: rest =>
    let p := isValidSwap grid mask rows cols r1 c1 r2 c2
    if p.1 then (true, p.2) else hasValidMovesAux mask rows cols p.2 rest

/-- MatchValidator.hasValidMoves: true when at least one tentative swap
of two adjacent slots creates a match; the grid component is the grid
as left behind by the call. -/
def hasValidMoves (grid : Grid) (mask : Mask) (rows cols : Nat) : Bool × Grid :=
  hasValidMovesAux mask rows cols grid (swapCandidates rows cols)

/-! ### Match3Game.ts: match scan (maskless base revision) -/

/-- Match3Game.findAllMatches, inner horizontal loop: consecutive
occupied cells of type t from column i on row r (an empty or
differently typed cell breaks the scan). -/
def gameRunH (grid : Grid) (r t : Nat) : Nat → Nat → Nat
  | _, 0 => 0
  | i, fuel + 1 =>
    if typeAt grid r i = some t then 1 + gameRunH grid r t (i + 1) fuel
    else 0

/-- Match3Game.findAllMatches, inner vertical loop. -/
def gameRunV (grid : Grid) (c t : Nat) : Nat → Nat → Nat
  | _, 0 => 0
  | i, fuel + 1 =>
    if typeAt grid i c = some t then 1 + gameRunV grid c t (i + 1) fuel
    else 0

/-- The slots a horizontal scan start of Match3Game.findAllMatches
contributes. -/
def gameHorizAt (grid : Grid) (cols r c : Nat) : Finset (Nat × Nat) :=
  match typeAt grid r c with
  | none => ∅
  | some t =>
    let len := 1 + gameRunH grid r t (c + 1) (cols - (c + 1))
    if 3 ≤ len then ((List.range len).map fun j => (r, c + j)).toFinset else ∅

/-- The slots a vertical scan start of Match3Game.findAllMatches
contributes. -/
def gameVertAt (grid : Grid) (rows c r : Nat) : Finset (Nat × Nat) :=
  match typeAt grid r c with
  | none => ∅
  | some t =>
    let len := 1 + gameRunV grid c t (r + 1) (rows - (r + 1))
    if 3 ≤ len then ((List.range len).map fun j => (r + j, c)).toFinset else ∅

/-- Match3Game.findAllMatches: all slots of all runs of length at
least 3, horizontal and vertical, deduplicated. -/
def gameFindAllMatches (grid : Grid) (rows cols : Nat) : Finset (Nat × Nat) :=
  ((Finset.range rows).biUnion fun r =>
    (Finset.range (cols - 2)).biUnion fun c => gameHorizAt grid cols r c) ∪
  ((Finset.range cols).biUnion fun c =>
    (Finset.range (rows - 2)).biUnion fun r => gameVertAt grid rows c r)

/-! ### Match3Game.ts: board generation -/

/-- Match3Game.wouldCreateMatch: would a gem of type t at (r, c) close
a run with the two slots to its left or the two slots below it (rows
below have smaller index; the source grid grows bottom-up). -/
def wouldCreateMatch (grid : Grid) (r c t : Nat) : Bool :=
  (decide (2 ≤ c) && (typeAt grid r (c - 1) == some t) && (typeAt grid r (c - 2) == some t)) ||
  (decide (2 ≤ r) && (typeAt grid (r - 1) c == some t) && (typeAt grid (r - 2) c == some t))

/-- The do-draw-while-wouldCreateMatch loop of Match3Game.initializeGrid
for one cell: draw rand i mod k, retry while the draw would create a
match.  The loop has no bound in the source; fuel counts the draws still
allowed before the embedding gives up, and the returned cursor points
past the consumed draws. -/
def pickGemType (k : Nat) (rand : Nat → Nat) (grid : Grid) (r c : Nat) :
    Nat → Nat → Option (Nat × Nat)
  | 0, _ => none
  | fuel + 1, i =>
    let t := rand i % k
    if wouldCreateMatch grid r c t then pickGemType k rand grid r c fuel (i + 1)
    else some (t, i + 1)

/-- Match3Game.createGem during generation: the new gem is written at
the next free column of row r, which the source addresses as
grid row col with col equal to the current row length. -/
def appendCell (grid : Grid) (r : Nat) (g : Gem) : Grid :=
  match grid[r]? with
  | some row => grid.set r (row ++ [some g])
  | none => grid

/-- The inner column loop of Match3Game.initializeGrid on row r: fill
cnt remaining cells starting at column c, threading the RNG cursor. -/
def fillRowCells (k : Nat) (rand : Nat → Nat) (fuel r : Nat) :
    Grid → Nat → Nat → Nat → Option (Grid × Nat)
  | grid, _, 0, i => some (grid, i)
  | grid, c, cnt + 1, i =>
    match pickGemType k rand grid r c fuel i with
    | none => none
    | some (t, i') => fillRowCells k rand fuel r (appendCell grid r ⟨t⟩) (c + 1) cnt i'

/-- The outer row loop of Match3Game.initializeGrid: append an empty
row, fill its cols cells, repeat for cnt remaining rows. -/
def fillRows (k : Nat) (rand : Nat → Nat) (fuel cols : Nat) :
    Grid → Nat → Nat → Nat → Option (Grid × Nat)
  | grid, _, 0, i => some (grid, i)
  | grid, r, cnt + 1, i =>
    match fillRowCells k rand fuel r (grid ++ [[]]) 0 cols i with
    | none => none
    | some (g', i') => fillRows k rand fuel cols g' (r + 1) cnt i'

/-- Match3Game.initializeGrid: build the rows-by-cols board cell by
cell, each cell drawing random types until one would not create a
match.  none when some cell exhausts its draw fuel, mirroring a run of
the source loop that has not yet terminated after that many draws. -/
def initializeGrid (rows cols k : Nat) (rand : Nat → Nat) (fuel : Nat) : Option Grid :=
  (fillRows k rand fuel cols [] 0 rows 0).map Prod.fst

/-! ### Match3Game.ts: controller state and turn flow -/

/-- The mutable controller state of Match3Game together with its
configuration fields; the RNG cursor stands for the ambient random
source consumed so far. -/
structure GameSt where
  grid : Grid
  rows : Nat
  cols : Nat
  gemTypes : Nat
  score : Nat
  rotationAngle : Nat
  remainingRotations : Nat
  isProcessing : Bool
  selectedGem : Option (Nat × Nat)
  rngIdx : Nat
deriving DecidableEq, Repr

/-- Match3Game.areAdjacent: the absolute row and column differences. -/
def areAdjacent (r1 c1 r2 c2 : Nat) : Bool :=
  let rowDiff := max r1 r2 - min r1 r2
  let colDiff := max c1 c2 - min c1 c2
  (rowDiff == 1 && colDiff == 0) || (rowDiff == 0 && colDiff == 1)

/-- The falling-target scan of Match3Game.applyDownGravity: from the
given row step down through empty slots of the column. -/
def fallTargetDown (grid : Grid) (col : Nat) : Nat → Nat
  | 0 => 0
  | t + 1 => if cellAt grid t col = none then fallTargetDown grid col t else t + 1

/-- The rising-target scan of Match3Game.applyUpGravity: from row t
step up while the slot above exists (index below rows) and is empty;
fuel bounds the climb by the row count. -/
def fallTargetUp (grid : Grid) (col rows : Nat) : Nat → Nat → Nat
  | t, 0 => t
  | t, fuel + 1 =>
    if decide (t + 1 < rows) && decide (cellAt grid (t + 1) col = none) then
      fallTargetUp grid col rows (t + 1) fuel
    else t

/-- The leftward-target scan of Match3Game.applyLeftGravity. -/
def fallTargetLeft (grid : Grid) (row : Nat) : Nat → Nat
  | 0 => 0
  | t + 1 => if cellAt grid row t = none then fallTargetLeft grid row t else t + 1

/-- The rightward-target scan of Match3Game.applyRightGravity. -/
def fallTargetRight (grid : Grid) (row cols : Nat) : Nat → Nat → Nat
  | t, 0 => t
  | t, fuel + 1 =>
    if decide (t + 1 < cols) && decide (cellAt grid row (t + 1) = none) then
      fallTargetRight grid row cols (t + 1) fuel
    else t

/-- One cell step of Match3Game.applyDownGravity: move the gem at
(row, col) to its falling target when that differs. -/
def downStep : Grid × Bool → Nat × Nat → Grid × Bool := fun p q =>
  match cellAt p.1 q.2 q.1 with
  | none => p
  | some gem =>
    let tr := fallTargetDown p.1 q.1 q.2
    if tr = q.2 then p
    else (setCell (setCell p.1 q.2 q.1 none) tr q.1 (some gem), true)

/-- Match3Game.applyDownGravity: column-major sweep from row 1 upward,
dropping each gem to the lowest empty slot below it. -/
def applyDownGravityG (grid : Grid) (rows cols : Nat) : Grid × Bool :=
  (((List.range cols).flatMap fun col =>
    (List.range (rows - 1)).map fun j => (col, j + 1)).foldl downStep (grid, false))

/-- One cell step of Match3Game.applyUpGravity. -/
def upStep (rows : Nat) : Grid × Bool → Nat × Nat → Grid × Bool := fun p q =>
  match cellAt p.1 q.2 q.1 with
  | none => p
  | some gem =>
    let tr := fallTargetUp p.1 q.1 rows q.2 rows
    if tr = q.2 then p
    else (setCell (setCell p.1 q.2 q.1 none) tr q.1 (some gem), true)

/-- Match3Game.applyUpGravity: column-major sweep from row rows-2
downward, raising each gem to the highest empty slot above it. -/
def applyUpGravityG (grid : Grid) (rows cols : Nat) : Grid × Bool :=
  (((List.range cols).flatMap fun col =>
    ((List.range (rows - 1)).reverse).map fun j => (col, j)).foldl (upStep rows) (grid, false))

/-- One cell step of Match3Game.applyLeftGravity. -/
def leftStep : Grid × Bool → Nat × Nat → Grid × Bool := fun p q =>
  match cellAt p.1 q.1 q.2 with
  | none => p
  | some gem =>
    let tc := fallTargetLeft p.1 q.1 q.2
    if tc = q.2 then p
    else (setCell (setCell p.1 q.1 q.2 none) q.1 tc (some gem), true)

/-- Match3Game.applyLeftGravity: row-major sweep from column 1
rightward, sliding each gem to the leftmost empty slot. -/
def applyLeftGravityG (grid : Grid) (rows cols : Nat) : Grid × Bool :=
  (((List.range rows).flatMap fun row =>
    (List.range (cols - 1)).map fun j => (row, j + 1)).foldl leftStep (grid, false))

/-- One cell step of Match3Game.applyRightGravity. -/
def rightStep (cols : Nat) : Grid × Bool → Nat × Nat → Grid × Bool := fun p q =>
  match cellAt p.1 q.1 q.2 with
  | none => p
  | some gem =>
    let tc := fallTargetRight p.1 q.1 cols q.2 cols
    if tc = q.2 then p
    else (setCell (setCell p.1 q.1 q.2 none) q.1 tc (some gem), true)

/-- Match3Game.applyRightGravity: row-major sweep from column cols-2
leftward. -/
def applyRightGravityG (grid : Grid) (rows cols : Nat) : Grid × Bool :=
  (((List.range rows).flatMap fun row =>
    ((List.range (cols - 1)).reverse).map fun j => (row, j)).foldl (rightStep cols) (grid, false))

/-- One fill step shared by the four fill loops of
Match3Game.fillEmptySpaces: create a gem of a fresh random type in an
empty slot, advancing the RNG cursor. -/
def fillStep (k : Nat) (rand : Nat → Nat) : Grid × Nat → Nat × Nat → Grid × Nat := fun p q =>
  if cellAt p.1 q.1 q.2 = none then
    (setCell p.1 q.1 q.2 (some ⟨rand p.2 % k⟩), p.2 + 1)
  else p

/-- Match3Game.fillEmptySpaces: fill every empty slot with a fresh
random gem, visiting slots in the order of the fill loop selected by
the rotation angle (the spawn positions and tweens are presentation
only; the grid effect is the visit order and the RNG consumption). -/
def fillEmptySpacesG (k : Nat) (rand : Nat → Nat) (rows cols angle : Nat)
    (grid : Grid) (i : Nat) : Grid × Nat :=
  if angle = 0 then
    (((List.range cols).flatMap fun col =>
      ((List.range rows).reverse).map fun row => (row, col)).foldl (fillStep k rand) (grid, i))
  else if angle = 90 then
    (((List.range rows).flatMap fun row =>
      ((List.range cols).reverse).map fun col => (row, col)).foldl (fillStep k rand) (grid, i))
  else if angle = 180 then
    (((List.range cols).flatMap fun col =>
      (List.range rows).map fun row => (row, col)).foldl (fillStep k rand) (grid, i))
  else if angle = 270 then
    (((List.range rows).flatMap fun row =>
      (List.range cols).map fun col => (row, col)).foldl (fillStep k rand) (grid, i))
  else (grid, i)

/-- Match3Game.applyGravity: run the directional pass for the current
angle; if anything moved, fill the empty slots and recurse until a
pass reports no movement.  Fuel bounds the recursion depth. -/
def gameApplyGravity (k : Nat) (rand : Nat → Nat) (rows cols : Nat) :
    Nat → Nat → Grid → Nat → Option (Grid × Nat)
  | 0, _, _, _ => none
  | fuel + 1, angle, grid, i =>
    let p :=
      if angle = 0 then applyDownGravityG grid rows cols
      else if angle = 90 then applyLeftGravityG grid rows cols
      else if angle = 180 then applyUpGravityG grid rows cols
      else if angle = 270 then applyRightGravityG grid rows cols
      else (grid, false)
    if p.2 then
      let q := fillEmptySpacesG k rand rows cols angle p.1 i
      gameApplyGravity k rand rows cols fuel angle q.1 q.2
    else some (p.1, i)

/-- Match3Game.removeGems: clear the slot of every matched gem (the
source nulls the slot each matched node points at; a node corresponds
to its unique slot). -/
def removeGemsG (grid : Grid) (ms : Finset (Nat × Nat)) : Grid :=
  grid.mapIdx fun r row => row.mapIdx fun c cell => if (r, c) ∈ ms then none else cell

/-- Match3Game.processMatches: score 10 per matched gem, remove,
re-run gravity and fill, rescan and recurse while matches remain.
Fuel bounds the cascade depth; the result is the grid, the score and
the RNG cursor after the cascade settles. -/
def processMatches (k : Nat) (rand : Nat → Nat) (rows cols : Nat) :
    Nat → Grid → Nat → Nat → Nat → Finset (Nat × Nat) → Option (Grid × Nat × Nat)
  | 0, _, _, _, _, _ => none
  | fuel + 1, grid, score, angle, i, ms =>
    let score1 := score + ms.card * 10
    let grid1 := removeGemsG grid ms
    match gameApplyGravity k rand rows cols fuel angle grid1 i with
    | none => none
    | some (grid2, i2) =>
      let ms2 := gameFindAllMatches grid2 rows cols
      if ms2 = ∅ then some (grid2, score1, i2)
      else processMatches k rand rows cols fuel grid2 score1 angle i2 ms2

/-- Match3Game.swapGems on the gems at slots (r1, c1) and (r2, c2):
set busy, swap the two slots, scan; on a match run the cascade, else
swap back; clear busy.  The coordinate arguments stand for the two gem
nodes handed in by onGemClicked, so both slots hold gems at every real
call site; the none fallback covers the impossible empty-slot case. -/
def swapGems (rand : Nat → Nat) (fuel : Nat) (st : GameSt) (r1 c1 r2 c2 : Nat) :
    Option GameSt :=
  match cellAt st.grid r1 c1, cellAt st.grid r2 c2 with
  | some g1, some g2 =>
    if gameFindAllMatches (setCell (setCell st.grid r2 c2 (some g1)) r1 c1 (some g2))
        st.rows st.cols = ∅ then
      some { st with
        grid := setCell (setCell (setCell (setCell st.grid r2 c2 (some g1)) r1 c1 (some g2))
          r1 c1 (some g1)) r2 c2 (some g2)
        isProcessing := false }
    else
      match processMatches st.gemTypes rand st.rows st.cols fuel
          (setCell (setCell st.grid r2 c2 (some g1)) r1 c1 (some g2)) st.score
          st.rotationAngle st.rngIdx
          (gameFindAllMatches (setCell (setCell st.grid r2 c2 (some g1)) r1 c1 (some g2))
            st.rows st.cols) with
      | none => none
      | some (g', sc', i') =>
        some { st with grid := g', score := sc', rngIdx := i', isProcessing := false }
  | _, _ => none

/-- Match3Game.rotateBoard: reject while busy or out of rotations;
otherwise consume one rotation, turn the angle by the signed degree
delta mod 360, run gravity for the new angle, then the match scan and
cascade.  The source is called with degrees 90 or -90. -/
def rotateBoard (rand : Nat → Nat) (fuel : Nat) (st : GameSt) (degrees : Int) :
    Option GameSt :=
  if st.isProcessing || decide (st.remainingRotations = 0) then some st
  else
    match gameApplyGravity st.gemTypes rand st.rows st.cols fuel
        (((st.rotationAngle : Int) + degrees + 360) % 360).toNat st.grid st.rngIdx with
    | none => none
    | some (grid1, i1) =>
      if gameFindAllMatches grid1 st.rows st.cols = ∅ then
        some { st with
          grid := grid1
          rngIdx := i1
          rotationAngle := (((st.rotationAngle : Int) + degrees + 360) % 360).toNat
          remainingRotations := st.remainingRotations - 1
          isProcessing := false }
      else
        match processMatches st.gemTypes rand st.rows st.cols fuel grid1 st.score
            (((st.rotationAngle : Int) + degrees + 360) % 360).toNat i1
            (gameFindAllMatches grid1 st.rows st.cols) with
        | none => none
        | some (g', sc', i') =>
          some { st with
            grid := g'
            score := sc'
            rngIdx := i'
            rotationAngle := (((st.rotationAngle : Int) + degrees + 360) % 360).toNat
            remainingRotations := st.remainingRotations - 1
            isProcessing := false }

/-- Match3Game.onGemClicked for a click on the gem at (r, c): ignored
while busy; otherwise select, deselect on re-click, swap with the
selection when adjacent, else move the selection. -/
def onGemClicked (rand : Nat → Nat) (fuel : Nat) (st : GameSt) (r c : Nat) :
    Option GameSt :=
  if st.isProcessing then some st
  else
    match st.selectedGem with
    | none => some { st with selectedGem := some (r, c) }
    | some (sr, sc) =>
      if sr = r ∧ sc = c then some { st with selectedGem := none }
      else if areAdjacent sr sc r c then
        (swapGems rand fuel st sr sc r c).map fun st' => { st' with selectedGem := none }
      else some { st with selectedGem := some (r, c) }

/-! ### GravityManager.ts: collect-and-place passes

GravityManager processes each column (for Down and Up) or each row (for
Left and Right) independently; the board operations below therefore take
a board presented as its list of lines (the list of columns, or the list
of rows), each line paired with its playability mask, and the per-line
functions embed the body of the per-column or per-row loop of the
source.  In a line, cells are ordered by ascending index (row index for
a column, column index for a row), and the gem type is abstract, since
the pass only relocates the stored nodes. -/

/-- Step 1 of applyDown and applyLeft: the gems of the playable cells of
a line with their original indices, in line order, counting from i. -/
def collectGems {α : Type} : List Bool → List (Option α) → Nat → List (α × Nat)
  | [], _, _ => []
  | _, [], _ => []
  | m :: ms, cell :: cs, i =>
    match cell, m with
    | some g, true => (g, i) :: collectGems ms cs (i + 1)
    | _, _ => collectGems ms cs (i + 1)

/-- Step 2 of applyDown and applyLeft: null every playable cell of the
line, leaving blocked cells untouched. -/
def clearPlayable {α : Type} : List Bool → List (Option α) → List (Option α)
  | [], cs => cs
  | _ :: _, [] => []
  | m :: ms, cell :: cs => (if m then none else cell) :: clearPlayable ms cs

/-- Step 3 of applyDown and applyLeft: the index of the first playable
cell of the line, scanning from index i; none when the whole line is
blocked (the source encodes none as -1). -/
def firstPlayable : List Bool → Nat → Option Nat
  | [], _ => none
  | m :: ms, i => if m then some i else firstPlayable ms (i + 1)

/-- The write-index advance of applyDown and applyLeft: from index w,
step over blocked cells while inside the line.  Fuel bounds the scan by
the line length; the result is the first index at or after w that is
playable or past the end. -/
def skipBlocked (mask : List Bool) : Nat → Nat → Nat
  | w, 0 => w
  | w, fuel + 1 =>
    if mask[w]? = some false then skipBlocked mask (w + 1) fuel else w

/-- Step 4 of applyDown and applyLeft: place the collected gems one by
one at the write index, which starts at the first playable cell and
advances past blocked cells after every placement; placing stops when
the write index leaves the line.  The moved flag records whether any
gem landed away from its original index. -/
def placeGems {α : Type} (mask : List Bool) :
    List (Option α) → Nat → Bool → List (α × Nat) → List (Option α) × Bool
  | line, _, moved, [] => (line, moved)
  | line, w, moved, (g, orig) :: rest =>
    if mask.length ≤ w then (line, moved)
    else
      placeGems mask (line.set w (some g)) (skipBlocked mask (w + 1) mask.length)
        (moved || decide (w ≠ orig)) rest

/-- GravityManager.applyDown, body of the per-column loop: collect the
gems of the playable cells, clear those cells, and re-place the gems
from the first playable cell upward.  The pair is the resulting column
and this column's contribution to the anyMoved flag. -/
def applyDownLine {α : Type} (mask : List Bool) (line : List (Option α)) :
    List (Option α) × Bool :=
  let gems := collectGems mask line 0
  if gems.isEmpty then (line, false)
  else
    let cleared := clearPlayable mask line
    match firstPlayable mask 0 with
    | none => (cleared, false)
    | some w0 => placeGems mask cleared w0 false gems

/-- GravityManager.applyLeft, body of the per-row loop: the same
collect-and-place pass over a row, packing toward column 0. -/
def applyLeftLine {α : Type} (mask : List Bool) (line : List (Option α)) :
    List (Option α) × Bool :=
  let gems := collectGems mask line 0
  if gems.isEmpty then (line, false)
  else
    let cleared := clearPlayable mask line
    match firstPlayable mask 0 with
    | none => (cleared, false)
    | some w0 => placeGems mask cleared w0 false gems

/-- The playable cell indices of a line in ascending order counting
from i (the playableCells array of applyUp and applyRight). -/
def playableIdxsFrom : List Bool → Nat → List Nat
  | [], _ => []
  | m :: ms, i => if m then i :: playableIdxsFrom ms (i + 1) else playableIdxsFrom ms (i + 1)

/-- The fused collect-and-clear loop of applyUp and applyRight: walk
the playable cell indices, pop each present gem with its original index
and null its cell. -/
def collectClear {α : Type} : List (Option α) → List Nat → List (α × Nat) × List (Option α)
  | line, [] => ([], line)
  | line, p :: ps =>
    match getElem? line p with
    | some (some g) =>
      let q := collectClear (line.set p none) ps
      ((g, p) :: q.1, q.2)
    | _ => collectClear line ps

/-- The placement loop of applyUp and applyRight: write each gem at its
target cell, accumulating the moved flag; the target list pairs gem j
with the playable cell at position startIndex minus j, and pairing
truncates exactly where the source loop breaks on a negative target
index. -/
def placeAtTargets {α : Type} :
    List (Option α) → Bool → List ((α × Nat) × Nat) → List (Option α) × Bool
  | line, moved, [] => (line, moved)
  | line, moved, ((g, orig), tgt) :: rest =>
    placeAtTargets (line.set tgt (some g)) (moved || decide (tgt ≠ orig)) rest

/-- GravityManager.applyUp, body of the per-column loop: collect the
gems of the playable cells top-down in line order, then place gem j at
the playable cell ranked startIndex minus j, so the first collected gem
lands on the highest playable cell. -/
def applyUpLine {α : Type} (mask : List Bool) (line : List (Option α)) :
    List (Option α) × Bool :=
  let pcells := playableIdxsFrom mask 0
  if pcells.isEmpty then (line, false)
  else
    let q := collectClear line pcells
    if q.1.isEmpty then (q.2, false)
    else placeAtTargets q.2 false (q.1.zip pcells.reverse)

/-- GravityManager.applyRight, body of the per-row loop: the same pass
over a row, the first collected gem landing on the rightmost playable
cell. -/
def applyRightLine {α : Type} (mask : List Bool) (line : List (Option α)) :
    List (Option α) × Bool :=
  let pcells := playableIdxsFrom mask 0
  if pcells.isEmpty then (line, false)
  else
    let q := collectClear line pcells
    if q.1.isEmpty then (q.2, false)
    else placeAtTargets q.2 false (q.1.zip pcells.reverse)

/-- A whole-board gravity pass assembled from its independent per-line
passes (lines = columns for applyDown and applyUp, rows for applyLeft
and applyRight); the flag is the anyMoved accumulator. -/
def applyLineBoard {α : Type}
    (pass : List Bool → List (Option α) → List (Option α) × Bool)
    (masks : List (List Bool)) (board : List (List (Option α))) :
    List (List (Option α)) × Bool :=
  let rs := (masks.zip board).map fun p => pass p.1 p.2
  (rs.map Prod.fst, rs.any Prod.snd)

/-! ### Spec-side packing (section 4.3 of the specification)

specPlace lays a list of slot contents onto the playable cells of a
line in order, skipping blocked cells entirely; packing against the
low-index end places the tiles first, packing against the high-index
end pads with empties first. -/

/-- Lay slot contents onto successive playable cells: the j-th playable
cell receives the j-th slot (empty when the slots run out); blocked
cells keep their previous content. -/
def specPlace {α : Type} : List Bool → List (Option α) → List (Option α) → List (Option α)
  | [], _, _ => []
  | _ :: _, [], _ => []
  | true :: ms, _ :: cs, s :: ss => s :: specPlace ms cs ss
  | true :: ms, _ :: cs, [] => none :: specPlace ms cs []
  | false :: ms, c :: cs, ss => c :: specPlace ms cs ss

/-- The number of playable cells of a line. -/
def countPlayable (mask : List Bool) : Nat := (mask.filter id).length

/-- Spec packing toward the low-index end: the collected tiles occupy
the first playable cells in order, the remaining playable cells are
empty, blocked cells are untouched. -/
def specPackLow {α : Type} (mask : List Bool) (line : List (Option α)) (gs : List α) :
    List (Option α) :=
  specPlace mask line (gs.map some)

/-- Spec packing toward the high-index end: the collected tiles occupy
the last playable cells in order, the playable cells before them are
empty, blocked cells are untouched; stated as the mirror image of
packing the reversed tile list toward the low-index end of the
reversed line. -/
def specPackHigh {α : Type} (mask : List Bool) (line : List (Option α)) (gs : List α) :
    List (Option α) :=
  (specPackLow mask.reverse line.reverse gs.reverse).reverse

/-- The tiles of the playable cells of a line, in line order: what one
gravity pass of GravityManager collects and re-places. -/
def collectTiles {α : Type} (mask : List Bool) (line : List (Option α)) : List α :=
  (collectGems mask line 0).map Prod.fst

/-- All tiles stored in a line, playable or blocked. -/
def gemsOf {α : Type} (line : List (Option α)) : List α :=
  line.filterMap id

/-- The tiles sitting on the blocked cells of a line, in line order:
what a gravity pass never touches. -/
def blockedGems {α : Type} : List Bool → List (Option α) → List α
  | [], _ => []
  | _ :: _, [] => []
  | true :: ms, _ :: cs => blockedGems ms cs
  | false :: ms, some g :: cs => g :: blockedGems ms cs
  | false :: ms, none :: cs => blockedGems ms cs

/-- Write each listed tile at its paired index (the grid effect of a
placement loop, separated from the moved bookkeeping). -/
def setList {α : Type} : List (Option α) → List (α × Nat) → List (Option α)
  | line, [] => line
  | line, (g, t) :: rest => setList (line.set t (some g)) rest

/-- The successive write positions of the placement loop of applyDown
and applyLeft: the current index when playable, then the indices the
blocked-cell skip advances to, one per gem still to place. -/
def nextTargets (mask : List Bool) : Nat → Nat → List Nat
  | _, 0 => []
  | w, n + 1 =>
    if mask.length ≤ w then []
    else w :: nextTargets mask (skipBlocked mask (w + 1) mask.length) n

/-- C8 witness: a busy controller state on which both gestures are
no-ops. -/
def stBusy : GameSt :=
  ⟨[[some ⟨0⟩, some ⟨1⟩]], 1, 2, 5, 40, 90, 3, true, some (0, 0), 7⟩

/-- C5 witness: a 1-by-2 board where swapping the two adjacent gems
creates no match, so the swap turn restores the state exactly. -/
def stSwap : GameSt :=
  ⟨[[some ⟨0⟩, some ⟨1⟩]], 1, 2, 5, 0, 0, 3, false, none, 0⟩

/-- A 1-by-1 idle state with budget 9 used to exercise the rotation
cycle concretely. -/
def stR0 : GameSt := ⟨[[some ⟨0⟩]], 1, 1, 5, 0, 0, 9, false, none, 0⟩

/-- stR0 after one right rotation. -/
def stR1 : GameSt := ⟨[[some ⟨0⟩]], 1, 1, 5, 0, 90, 8, false, none, 0⟩

/-- stR0 after two right rotations. -/
def stR2 : GameSt := ⟨[[some ⟨0⟩]], 1, 1, 5, 0, 180, 7, false, none, 0⟩

/-- stR0 after three right rotations. -/
def stR3 : GameSt := ⟨[[some ⟨0⟩]], 1, 1, 5, 0, 270, 6, false, none, 0⟩

/-- stR0 after four right rotations: the angle is back at its start
and exactly four budget units are gone. -/
def stR4 : GameSt := ⟨[[some ⟨0⟩]], 1, 1, 5, 0, 0, 5, false, none, 0⟩

/-! ### C2: state of the board after initializeGrid -/

/-- No three consecutive equal-typed slots anywhere on the board,
horizontally or vertically: the invariant initializeGrid maintains
while it fills the board cell by cell. -/
def NoTriple (grid : Grid) : Prop :=
  (∀ r c t, ¬(typeAt grid r c = some t ∧ typeAt grid r (c + 1) = some t ∧
    typeAt grid r (c + 2) = some t)) ∧
  (∀ r c t, ¬(typeAt grid r c = some t ∧ typeAt grid (r + 1) c = some t ∧
    typeAt grid (r + 2) c = some t))

/-- The RNG draws that generate the stuck 1-by-3 board: types 0, 1, 0. -/
def exRand : Nat → Nat := fun i => [0, 1, 0].getD i 0

/-- The generated 1-by-3 board. -/
def exGrid : Grid := [[some ⟨0⟩, some ⟨1⟩, some ⟨0⟩]]

/-! ### C4: findAllMatches returns exactly the union of the runs -/

/-- The slot (r, c) lies inside a horizontal window of at least 3
consecutive playable, occupied, same-typed cells: the spec description
of a member of a horizontal run contributing to the match set. -/
def SpecMatchedH (grid : Grid) (mask : Mask) (r c : Nat) : Prop :=
  ∃ a len t, 3 ≤ len ∧ a ≤ c ∧ c < a + len ∧
    ∀ j < len, maskAt mask r (a + j) = true ∧ typeAt grid r (a + j) = some t

/-- The vertical counterpart of SpecMatchedH. -/
def SpecMatchedV (grid : Grid) (mask : Mask) (r c : Nat) : Prop :=
  ∃ a len t, 3 ≤ len ∧ a ≤ r ∧ r < a + len ∧
    ∀ j < len, maskAt mask (a + j) c = true ∧ typeAt grid (a + j) c = some t

/-- The 10-cell example row of the specification: types A A A B B B B
A A A, all cells playable. -/
def exRow10 : Grid :=
  [[some ⟨0⟩, some ⟨0⟩, some ⟨0⟩, some ⟨1⟩, some ⟨1⟩, some ⟨1⟩, some ⟨1⟩,
    some ⟨0⟩, some ⟨0⟩, some ⟨0⟩]]

/-- The all-playable mask of the 10-cell example row. -/
def exMask10 : Mask :=
  [[true, true, true, true, true, true, true, true, true, true]]

/-! ### Claim C1: gravity packing order, all four directions -/

/-- Witness line for C1: mask true,false,true,true over tiles 3, 9 on a
blocked cell, an empty playable cell, and 5. -/
def c1Mask : List Bool := [true, false, true, true]

def c1Line : List (Option Gem) := [some (Gem.mk 3), some (Gem.mk 9), none, some (Gem.mk 5)]

/-! ### Claim C7: is a gravity pass idempotent? -/

/-- Witness column for C7: the claim's height-5 all-playable column
with tiles only at rows 0, 2 and 4. -/
def c7Mask : List Bool := [true, true, true, true, true]

def c7Line : List (Option Gem) :=
  [some (Gem.mk 0), none, some (Gem.mk 1), none, some (Gem.mk 2)]

/-! ### Claim C10: gravity preserves the tiles -/

/-- Witness board for C10: one masked row of three cells. -/
def c10Masks : List (List Bool) := [[true, false, true]]

def c10Board : List (List (Option Gem)) := [[some (Gem.mk 1), some (Gem.mk 2), none]]

/-! ### Basic slot lemmas -/

theorem setCell_eq_set {grid : Grid} {r : Nat} {row : List (Option Gem)}
    (c : Nat) (v : Option Gem) (hrow : grid[r]? = some row) :
    setCell grid r c v = grid.set r (row.set c v) := by
  unfold setCell
  rw [hrow]

theorem setCell_eq_of_none {grid : Grid} {r : Nat} (c : Nat) (v : Option Gem)
    (hrow : grid[r]? = none) : setCell grid r c v = grid := by
  unfold setCell
  rw [hrow]

theorem cellAt_eq_of_row {grid : Grid} {r : Nat} {row : List (Option Gem)}
    (c : Nat) (hrow : grid[r]? = some row) : cellAt grid r c = row[c]?.join := by
  unfold cellAt
  rw [hrow]
  rfl

theorem setCell_length (grid : Grid) (r c : Nat) (v : Option Gem) :
    (setCell grid r c v).length = grid.length := by
  cases h : grid[r]? with
  | none => rw [setCell_eq_of_none c v h]
  | some row => rw [setCell_eq_set c v h]; simp

theorem List.set_eq_self {α : Type} {l : List α} {n : Nat} {a : α}
    (h : l[n]? = some a) : l.set n a = l := by
  apply List.ext_getElem?
  intro m
  by_cases hm : n = m
  · subst hm
    rw [List.getElem?_set_eq_of_lt a (by
      rcases List.getElem?_eq_some.mp h with ⟨hl, _⟩
      exact hl)]
    exact h.symm
  · exact List.getElem?_set_ne hm

theorem setCell_cellAt_self {grid : Grid} {r c : Nat} {g : Gem}
    (h : cellAt grid r c = some g) : setCell grid r c (some g) = grid := by
  cases hrow : grid[r]? with
  | none => exact setCell_eq_of_none c (some g) hrow
  | some row =>
    rw [cellAt_eq_of_row c hrow] at h
    cases hc : row[c]? with
    | none => rw [hc] at h; simp [Option.join] at h
    | some cell =>
      rw [hc] at h
      simp only [Option.join] at h
      subst h
      rw [setCell_eq_set c (some g) hrow, List.set_eq_self hc, List.set_eq_self hrow]

theorem setCell_setCell_self (grid : Grid) (r c : Nat) (v w : Option Gem) :
    setCell (setCell grid r c v) r c w = setCell grid r c w := by
  cases hrow : grid[r]? with
  | none =>
    have e : ∀ c' v', setCell grid r c' v' = grid := fun c' v' =>
      setCell_eq_of_none c' v' hrow
    simp only [e]
  | some row =>
    have hlt : r < grid.length := (List.getElem?_eq_some.mp hrow).1
    rw [setCell_eq_set c v hrow]
    rw [setCell_eq_set c w (List.getElem?_set_eq_of_lt (row.set c v) hlt)]
    rw [List.set_set, List.set_set, setCell_eq_set c w hrow]

theorem setCell_comm (grid : Grid) {r1 c1 r2 c2 : Nat} (v w : Option Gem)
    (h : (r1, c1) ≠ (r2, c2)) :
    setCell (setCell grid r1 c1 v) r2 c2 w = setCell (setCell grid r2 c2 w) r1 c1 v := by
  by_cases hr : r1 = r2
  · subst hr
    have hc : c1 ≠ c2 := fun hc => h (by rw [hc])
    cases hrow : grid[r1]? with
    | none =>
      have e : ∀ c' v', setCell grid r1 c' v' = grid := fun c' v' =>
        setCell_eq_of_none c' v' hrow
      simp only [e]
    | some row =>
      have hlt : r1 < grid.length := (List.getElem?_eq_some.mp hrow).1
      rw [setCell_eq_set c1 v hrow,
        setCell_eq_set c2 w (List.getElem?_set_eq_of_lt (row.set c1 v) hlt),
        setCell_eq_set c2 w hrow,
        setCell_eq_set c1 v (List.getElem?_set_eq_of_lt (row.set c2 w) hlt)]
      rw [List.set_set, List.set_set, List.set_comm v w row hc]
  · have hr' : r2 ≠ r1 := fun hh => hr hh.symm
    cases hrow1 : grid[r1]? with
    | none =>
      rw [setCell_eq_of_none c1 v hrow1]
      cases hrow2 : grid[r2]? with
      | none =>
        rw [setCell_eq_of_none c2 w hrow2, setCell_eq_of_none c1 v hrow1]
      | some row2 =>
        rw [setCell_eq_set c2 w hrow2]
        rw [setCell_eq_of_none c1 v (by rw [List.getElem?_set_ne hr']; exact hrow1)]
    | some row1 =>
      rw [setCell_eq_set c1 v hrow1]
      cases hrow2 : grid[r2]? with
      | none =>
        rw [setCell_eq_of_none c2 w (by rw [List.getElem?_set_ne hr]; exact hrow2),
          setCell_eq_of_none c2 w hrow2, setCell_eq_set c1 v hrow1]
      | some row2 =>
        rw [setCell_eq_set c2 w (by rw [List.getElem?_set_ne hr]; exact hrow2),
          setCell_eq_set c2 w hrow2,
          setCell_eq_set c1 v (by rw [List.getElem?_set_ne hr']; exact hrow1)]
        exact List.set_comm _ _ grid hr

/-- The swap-check-unswap of isValidSwap restores the input grid. -/
theorem isValidSwap_frame (grid : Grid) (mask : Mask) (rows cols r1 c1 r2 c2 : Nat) :
    (isValidSwap grid mask rows cols r1 c1 r2 c2).2 = grid := by
  unfold isValidSwap
  cases h1 : cellAt grid r1 c1 with
  | none => rfl
  | some g1 =>
    cases h2 : cellAt grid r2 c2 with
    | none => rfl
    | some g2 =>
      by_cases hb : maskAt mask r1 c1 = false ∨ maskAt mask r2 c2 = false
      · simp [hb]
      · simp only [hb, if_false]
        by_cases heq : (r1, c1) = (r2, c2)
        · have hr : r1 = r2 := congrArg Prod.fst heq
          have hc : c1 = c2 := congrArg Prod.snd heq
          subst hr; subst hc
          have hg : g1 = g2 := by rw [h1] at h2; exact Option.some.inj h2
          subst hg
          rw [setCell_setCell_self, setCell_setCell_self, setCell_setCell_self]
          exact setCell_cellAt_self h1
        · rw [setCell_comm (setCell grid r1 c1 (some g2)) (some g1) (some g1)
              (fun hh : (r2, c2) = (r1, c1) => heq hh.symm)]
          rw [setCell_setCell_self, setCell_setCell_self]
          rw [setCell_cellAt_self h1, setCell_cellAt_self h2]

theorem hasValidMovesAux_frame (mask : Mask) (rows cols : Nat)
    (cands : List (Nat × Nat × Nat × Nat)) (grid : Grid) :
    (hasValidMovesAux mask rows cols grid cands).2 = grid := by
  induction cands generalizing grid with
  | nil => rfl
  | cons cand rest ih =>
    obtain ⟨r1, c1, r2, c2⟩ := cand
    simp only [hasValidMovesAux]
    rw [isValidSwap_frame grid mask rows cols r1 c1 r2 c2]
    split
    · rfl
    · exact ih grid

/-- C3: hasValidMoves never mutates the board: the grid it leaves
behind is slot-for-slot the grid it was called on, on every path,
including the early return upon finding the first valid tentative
swap. -/
theorem hasValidMoves_preserves_board (grid : Grid) (mask : Mask) (rows cols : Nat) :
    (hasValidMoves grid mask rows cols).2 = grid :=
  hasValidMovesAux_frame mask rows cols (swapCandidates rows cols) grid

/-! ### C8: the busy flag gates every gesture -/

/-- C8: a gesture arriving while the busy flag is set is silently
ignored: onGemClicked and rotateBoard return with the state they were
called on, slot for slot and field for field, and queue nothing. -/
theorem busy_gestures_ignored (rand : Nat → Nat) (fuel : Nat) (st : GameSt)
    (r c : Nat) (d : Int) (h : st.isProcessing = true) :
    onGemClicked rand fuel st r c = some st ∧ rotateBoard rand fuel st d = some st := by
  constructor
  · unfold onGemClicked
    rw [h]
    rfl
  · unfold rotateBoard
    rw [h]
    rfl

theorem busy_gestures_ignored_witness :
    onGemClicked (fun _ => 0) 3 stBusy 0 1 = some stBusy ∧
    rotateBoard (fun _ => 0) 3 stBusy 90 = some stBusy :=
  busy_gestures_ignored (fun _ => 0) 3 stBusy 0 1 90 rfl

/-! ### C5: a swap with no match is reverted without effect -/

theorem areAdjacent_ne {r1 c1 r2 c2 : Nat} (h : areAdjacent r1 c1 r2 c2 = true) :
    (r1, c1) ≠ (r2, c2) := by
  intro he
  have hr : r1 = r2 := congrArg Prod.fst he
  have hc : c1 = c2 := congrArg Prod.snd he
  subst hr; subst hc
  unfold areAdjacent at h
  simp only [Bool.or_eq_true, Bool.and_eq_true, beq_iff_eq] at h
  omega

/-- C5: a swap turn on adjacent occupied slots whose swap produces no
match is fully reverted: the call returns the exact pre-swap state
(board, score, angle, rotations, selection and RNG cursor unchanged),
with no cascade, gravity or fill run. -/
theorem swap_no_match_reverts (rand : Nat → Nat) (fuel : Nat) (st : GameSt)
    (r1 c1 r2 c2 : Nat) (g1 g2 : Gem)
    (hg1 : cellAt st.grid r1 c1 = some g1) (hg2 : cellAt st.grid r2 c2 = some g2)
    (hadj : areAdjacent r1 c1 r2 c2 = true) (hbusy : st.isProcessing = false)
    (hnm : gameFindAllMatches (setCell (setCell st.grid r2 c2 (some g1)) r1 c1 (some g2))
      st.rows st.cols = ∅) :
    swapGems rand fuel st r1 c1 r2 c2 = some st := by
  have hne : (r1, c1) ≠ (r2, c2) := areAdjacent_ne hadj
  have hne' : (r2, c2) ≠ (r1, c1) := fun hh => hne hh.symm
  unfold swapGems
  rw [hg1, hg2]
  simp only [hnm, if_pos rfl]
  have hrestore :
      setCell (setCell (setCell (setCell st.grid r2 c2 (some g1)) r1 c1 (some g2))
        r1 c1 (some g1)) r2 c2 (some g2) = st.grid := by
    rw [setCell_setCell_self]
    rw [setCell_comm (st.grid) (some g1) (some g1) hne']
    rw [setCell_setCell_self]
    rw [setCell_cellAt_self hg1, setCell_cellAt_self hg2]
  rw [hrestore]
  obtain ⟨g, rws, cls, k, sc, ang, rem, busy, sel, idx⟩ := st
  simp only at hbusy
  subst hbusy
  rfl

theorem swap_no_match_reverts_witness :
    swapGems (fun _ => 0) 2 stSwap 0 0 0 1 = some stSwap :=
  swap_no_match_reverts (fun _ => 0) 2 stSwap 0 0 0 1 ⟨0⟩ ⟨1⟩ rfl rfl rfl rfl (by decide)

/-! ### C6: rotation budget and angle flow -/

/-- The effect of one accepted rotation on the budget, the angle and
the busy flag, independent of what the gravity pass and cascade do to
the board. -/
theorem rotateBoard_step {rand : Nat → Nat} {fuel : Nat} {st st' : GameSt} {d : Int}
    (h : rotateBoard rand fuel st d = some st') (hb : st.isProcessing = false)
    (hr : 0 < st.remainingRotations) :
    st'.remainingRotations = st.remainingRotations - 1 ∧
    st'.rotationAngle = (((st.rotationAngle : Int) + d + 360) % 360).toNat ∧
    st'.isProcessing = false := by
  unfold rotateBoard at h
  have hr0 : ¬st.remainingRotations = 0 := by omega
  rw [hb, Bool.false_or, decide_eq_false hr0, if_neg Bool.false_ne_true] at h
  split at h
  · exact absurd h (by simp)
  · split at h
    · cases h
      exact ⟨rfl, rfl, rfl⟩
    · split at h
      · exact absurd h (by simp)
      · cases h
        exact ⟨rfl, rfl, rfl⟩

/-- C6: rotation requests while not busy: with a zero budget the
request is rejected with no state change; otherwise the budget drops by
exactly one and the angle turns by the signed delta mod 360, so four
successive same-direction rotations restore the angle and consume
exactly four budget units; and the budget never increases across any
rotateBoard call. -/
theorem rotation_flow :
    (∀ (rand : Nat → Nat) (fuel : Nat) (st : GameSt) (d : Int),
      st.isProcessing = false → st.remainingRotations = 0 →
      rotateBoard rand fuel st d = some st) ∧
    (∀ (rand : Nat → Nat) (fuel : Nat) (st st' : GameSt) (d : Int),
      st.isProcessing = false → 0 < st.remainingRotations →
      rotateBoard rand fuel st d = some st' →
      st'.remainingRotations = st.remainingRotations - 1 ∧
      st'.rotationAngle = (((st.rotationAngle : Int) + d + 360) % 360).toNat) ∧
    (∀ (rand : Nat → Nat) (fuel : Nat) (st st1 st2 st3 st4 : GameSt) (d : Int),
      st.isProcessing = false → (d = 90 ∨ d = -90) →
      4 ≤ st.remainingRotations → st.rotationAngle < 360 →
      rotateBoard rand fuel st d = some st1 → rotateBoard rand fuel st1 d = some st2 →
      rotateBoard rand fuel st2 d = some st3 → rotateBoard rand fuel st3 d = some st4 →
      st4.rotationAngle = st.rotationAngle ∧
      st4.remainingRotations = st.remainingRotations - 4) ∧
    (∀ (rand : Nat → Nat) (fuel : Nat) (st st' : GameSt) (d : Int),
      rotateBoard rand fuel st d = some st' →
      st'.remainingRotations ≤ st.remainingRotations) := by
  refine ⟨?_, ?_, ?_, ?_⟩
  · intro rand fuel st d hb hr
    unfold rotateBoard
    rw [hb, hr]
    rfl
  · intro rand fuel st st' d hb hr h
    exact ⟨(rotateBoard_step h hb hr).1, (rotateBoard_step h hb hr).2.1⟩
  · intro rand fuel st st1 st2 st3 st4 d hb hd hr ha h1 h2 h3 h4
    obtain ⟨e1r, e1a, e1b⟩ := rotateBoard_step h1 hb (by omega)
    obtain ⟨e2r, e2a, e2b⟩ := rotateBoard_step h2 e1b (by omega)
    obtain ⟨e3r, e3a, e3b⟩ := rotateBoard_step h3 e2b (by omega)
    obtain ⟨e4r, e4a, _⟩ := rotateBoard_step h4 e3b (by omega)
    constructor
    · rw [e4a, e3a, e2a, e1a]
      rcases hd with hd | hd <;> subst hd <;> omega
    · omega
  · intro rand fuel st st' d h
    unfold rotateBoard at h
    split at h
    · cases h
      exact le_refl _
    · split at h
      · exact absurd h (by simp)
      · split at h
        · cases h
          simp only
          omega
        · split at h
          · exact absurd h (by simp)
          · cases h
            simp only
            omega

theorem rotation_flow_witness :
    stR4.rotationAngle = stR0.rotationAngle ∧
    stR4.remainingRotations = stR0.remainingRotations - 4 :=
  rotation_flow.2.2.1 (fun _ => 0) 2 stR0 stR1 stR2 stR3 stR4 90 rfl (Or.inl rfl)
    (by decide) (by decide) (by decide) (by decide) (by decide) (by decide)

/-! ### C9: the generation draw loop has no retry ceiling -/

/-- C9 counterexample: on a 1-by-3 board with 3 types and an RNG that
always yields type 0, the third cell rejects every draw, so generation
is still running after 51 draws per cell; under the claimed 50-draw
ceiling with the forced fallback type, generation would have completed
within 51 draws. -/
theorem initializeGrid_unbounded_retry_cex :
    initializeGrid 1 3 3 (fun _ => 0) 51 = none := by decide

/-- C9 amended: at any cell at most two types are rejected (the one
matching the pair to the left and the one matching the pair below), so
with at least 3 gem types an acceptable type always exists and the
rejection loop returns the first such draw; termination therefore
relies on the RNG eventually producing such a type, not on any retry
ceiling. -/
theorem pickGemType_finds_acceptable (k : Nat) (grid : Grid) (r c : Nat) (hk : 3 ≤ k) :
    ∃ t, t < k ∧ wouldCreateMatch grid r c t = false ∧
      ∀ (rand : Nat → Nat) (i fuel : Nat), rand i % k = t →
        pickGemType k rand grid r c (fuel + 1) i = some (t, i + 1) := by
  obtain ⟨t, ht3, h1, h2⟩ :
      ∃ t, t < 3 ∧ typeAt grid r (c - 1) ≠ some t ∧ typeAt grid (r - 1) c ≠ some t := by
    by_cases h00 : typeAt grid r (c - 1) = some 0 ∨ typeAt grid (r - 1) c = some 0
    · by_cases h11 : typeAt grid r (c - 1) = some 1 ∨ typeAt grid (r - 1) c = some 1
      · refine ⟨2, by omega, ?_, ?_⟩
        · intro ha2
          rcases h00 with h | h
          · rw [ha2] at h
            exact absurd (Option.some.inj h) (by omega)
          · rcases h11 with h' | h'
            · rw [ha2] at h'
              exact absurd (Option.some.inj h') (by omega)
            · rw [h] at h'
              exact absurd (Option.some.inj h') (by omega)
        · intro hb2
          rcases h00 with h | h
          · rcases h11 with h' | h'
            · rw [h] at h'
              exact absurd (Option.some.inj h') (by omega)
            · rw [hb2] at h'
              exact absurd (Option.some.inj h') (by omega)
          · rw [hb2] at h
            exact absurd (Option.some.inj h) (by omega)
      · exact ⟨1, by omega, (not_or.mp h11).1, (not_or.mp h11).2⟩
    · exact ⟨0, by omega, (not_or.mp h00).1, (not_or.mp h00).2⟩
  have hw : wouldCreateMatch grid r c t = false := by
    unfold wouldCreateMatch
    have e1 : (typeAt grid r (c - 1) == some t) = false := beq_eq_false_iff_ne.mpr h1
    have e2 : (typeAt grid (r - 1) c == some t) = false := beq_eq_false_iff_ne.mpr h2
    rw [e1, e2]
    simp
  refine ⟨t, by omega, hw, ?_⟩
  intro rand i fuel hrand
  unfold pickGemType
  rw [hrand]
  simp [hw]

/-- C9 amended witness: on the partial board whose first row starts
with two gems of type 0, the acceptable type exists for the third cell
of that row. -/
theorem pickGemType_finds_acceptable_witness :
    ∃ t, t < 3 ∧ wouldCreateMatch [[some ⟨0⟩, some ⟨0⟩]] 0 2 t = false ∧
      ∀ (rand : Nat → Nat) (i fuel : Nat), rand i % 3 = t →
        pickGemType 3 rand [[some ⟨0⟩, some ⟨0⟩]] 0 2 (fuel + 1) i = some (t, i + 1) :=
  pickGemType_finds_acceptable 3 [[some ⟨0⟩, some ⟨0⟩]] 0 2 (by omega)

theorem cellAt_of_len_le {grid : Grid} {r : Nat} (c : Nat) (h : grid.length ≤ r) :
    cellAt grid r c = none := by
  unfold cellAt
  rw [List.getElem?_eq_none h]
  rfl

theorem cellAt_of_row_len_le {grid : Grid} {r c : Nat} {row : List (Option Gem)}
    (hrow : grid[r]? = some row) (h : row.length ≤ c) : cellAt grid r c = none := by
  rw [cellAt_eq_of_row c hrow, List.getElem?_eq_none h]
  rfl

theorem appendCell_length (grid : Grid) (r : Nat) (g : Gem) :
    (appendCell grid r g).length = grid.length := by
  unfold appendCell
  cases h : grid[r]? with
  | none => rfl
  | some row => simp

theorem appendCell_row {grid : Grid} {r : Nat} {row : List (Option Gem)} (g : Gem)
    (hrow : grid[r]? = some row) :
    (appendCell grid r g)[r]? = some (row ++ [some g]) := by
  unfold appendCell
  rw [hrow]
  exact List.getElem?_set_eq_of_lt _ (List.getElem?_eq_some.mp hrow).1

theorem cellAt_appendCell_new {grid : Grid} {r : Nat} {row : List (Option Gem)} (g : Gem)
    (hrow : grid[r]? = some row) :
    cellAt (appendCell grid r g) r row.length = some g := by
  rw [cellAt_eq_of_row row.length (appendCell_row g hrow)]
  rw [List.getElem?_concat_length]
  rfl

theorem cellAt_appendCell_old {grid : Grid} {r : Nat} {row : List (Option Gem)}
    (r' c' : Nat) (g : Gem) (hrow : grid[r]? = some row)
    (hne : (r', c') ≠ (r, row.length)) :
    cellAt (appendCell grid r g) r' c' = cellAt grid r' c' := by
  by_cases hr : r' = r
  · subst hr
    have hc : c' ≠ row.length := fun hc => hne (by rw [hc])
    rw [cellAt_eq_of_row c' (appendCell_row g hrow), cellAt_eq_of_row c' hrow]
    by_cases hlt : c' < row.length
    · rw [List.getElem?_append_left hlt]
    · have h1 : row.length ≤ c' := by omega
      have h2 : (row ++ [some g]).length ≤ c' := by
        simp only [List.length_append, List.length_singleton]
        omega
      rw [List.getElem?_eq_none h2, List.getElem?_eq_none h1]
  · unfold appendCell
    rw [hrow]
    unfold cellAt
    rw [List.getElem?_set_ne (fun hh : r = r' => hr hh.symm)]

theorem typeAt_appendCell_old {grid : Grid} {r : Nat} {row : List (Option Gem)}
    (r' c' : Nat) (g : Gem) (hrow : grid[r]? = some row)
    (hne : (r', c') ≠ (r, row.length)) :
    typeAt (appendCell grid r g) r' c' = typeAt grid r' c' := by
  unfold typeAt
  rw [cellAt_appendCell_old r' c' g hrow hne]

/-- The decoded meaning of a false wouldCreateMatch check. -/
theorem wouldCreateMatch_false_iff {grid : Grid} {r c t : Nat} :
    wouldCreateMatch grid r c t = false ↔
      ¬(2 ≤ c ∧ typeAt grid r (c - 1) = some t ∧ typeAt grid r (c - 2) = some t) ∧
      ¬(2 ≤ r ∧ typeAt grid (r - 1) c = some t ∧ typeAt grid (r - 2) c = some t) := by
  unfold wouldCreateMatch
  simp [not_and, and_assoc, Decidable.imp_iff_not_or]
  tauto

theorem NoTriple_appendCell {grid : Grid} {r t : Nat} {row : List (Option Gem)}
    (hT : NoTriple grid) (hrow : grid[r]? = some row) (hlen : grid.length = r + 1)
    (hW : wouldCreateMatch grid r row.length t = false) :
    NoTriple (appendCell grid r ⟨t⟩) := by
  set c := row.length with hc
  obtain ⟨hWh, hWv⟩ := wouldCreateMatch_false_iff.mp hW
  have hnew : typeAt (appendCell grid r ⟨t⟩) r c = some t := by
    unfold typeAt
    rw [cellAt_appendCell_new ⟨t⟩ hrow]
    rfl
  have habsent : ∀ c'', c < c'' → typeAt (appendCell grid r ⟨t⟩) r c'' = none := by
    intro c'' hcc
    unfold typeAt
    rw [cellAt_of_row_len_le (appendCell_row ⟨t⟩ hrow) (by simp; omega)]
    rfl
  have habsentRow : ∀ r'' c'', r < r'' → typeAt (appendCell grid r ⟨t⟩) r'' c'' = none := by
    intro r'' c'' hrr
    unfold typeAt
    rw [cellAt_of_len_le c'' (by rw [appendCell_length]; omega)]
    rfl
  constructor
  · intro r₀ c₀ t₀ ⟨e0, e1, e2⟩
    by_cases h2 : (r₀, c₀ + 2) = (r, c)
    · have hr0 : r₀ = r := congrArg Prod.fst h2
      have hc2 : c₀ + 2 = c := congrArg Prod.snd h2
      rw [hr0] at e0 e1 e2
      rw [hc2, hnew] at e2
      have ht0 : t = t₀ := Option.some.inj e2
      rw [← ht0] at e0 e1
      have ha : typeAt grid r c₀ = some t := by
        rw [← typeAt_appendCell_old r c₀ ⟨t⟩ hrow (by
          intro hh
          have := congrArg Prod.snd hh
          omega)]
        exact e0
      have hb : typeAt grid r (c₀ + 1) = some t := by
        rw [← typeAt_appendCell_old r (c₀ + 1) ⟨t⟩ hrow (by
          intro hh
          have := congrArg Prod.snd hh
          omega)]
        exact e1
      refine hWh ⟨by omega, ?_, ?_⟩
      · have hcw : c - 1 = c₀ + 1 := by omega
        rw [hcw]
        exact hb
      · have hcw : c - 2 = c₀ := by omega
        rw [hcw]
        exact ha
    · by_cases h1 : (r₀, c₀ + 1) = (r, c)
      · have hr0 : r₀ = r := congrArg Prod.fst h1
        have hc1 : c₀ + 1 = c := congrArg Prod.snd h1
        rw [hr0] at e2
        rw [habsent (c₀ + 2) (by omega)] at e2
        exact Option.noConfusion e2
      · by_cases h0 : (r₀, c₀) = (r, c)
        · have hr0 : r₀ = r := congrArg Prod.fst h0
          have hc0 : c₀ = c := congrArg Prod.snd h0
          rw [hr0] at e1
          rw [habsent (c₀ + 1) (by omega)] at e1
          exact Option.noConfusion e1
        · refine hT.1 r₀ c₀ t₀ ⟨?_, ?_, ?_⟩
          · rw [← typeAt_appendCell_old r₀ c₀ ⟨t⟩ hrow h0]
            exact e0
          · rw [← typeAt_appendCell_old r₀ (c₀ + 1) ⟨t⟩ hrow h1]
            exact e1
          · rw [← typeAt_appendCell_old r₀ (c₀ + 2) ⟨t⟩ hrow h2]
            exact e2
  · intro r₀ c₀ t₀ ⟨e0, e1, e2⟩
    by_cases h2 : (r₀ + 2, c₀) = (r, c)
    · have hr2 : r₀ + 2 = r := congrArg Prod.fst h2
      have hc0 : c₀ = c := congrArg Prod.snd h2
      rw [hr2, hc0, hnew] at e2
      have ht0 : t = t₀ := Option.some.inj e2
      rw [← ht0] at e0 e1
      have ha : typeAt grid r₀ c₀ = some t := by
        rw [← typeAt_appendCell_old r₀ c₀ ⟨t⟩ hrow (by
          intro hh
          have := congrArg Prod.fst hh
          omega)]
        exact e0
      have hb : typeAt grid (r₀ + 1) c₀ = some t := by
        rw [← typeAt_appendCell_old (r₀ + 1) c₀ ⟨t⟩ hrow (by
          intro hh
          have := congrArg Prod.fst hh
          omega)]
        exact e1
      refine hWv ⟨by omega, ?_, ?_⟩
      · have hrw : r - 1 = r₀ + 1 := by omega
        rw [hrw, ← hc0]
        exact hb
      · have hrw : r - 2 = r₀ := by omega
        rw [hrw, ← hc0]
        exact ha
    · by_cases h1 : (r₀ + 1, c₀) = (r, c)
      · have hr1 : r₀ + 1 = r := congrArg Prod.fst h1
        rw [habsentRow (r₀ + 2) c₀ (by omega)] at e2
        exact Option.noConfusion e2
      · by_cases h0 : (r₀, c₀) = (r, c)
        · have hr0 : r₀ = r := congrArg Prod.fst h0
          rw [habsentRow (r₀ + 1) c₀ (by omega)] at e1
          exact Option.noConfusion e1
        · refine hT.2 r₀ c₀ t₀ ⟨?_, ?_, ?_⟩
          · rw [← typeAt_appendCell_old r₀ c₀ ⟨t⟩ hrow h0]
            exact e0
          · rw [← typeAt_appendCell_old (r₀ + 1) c₀ ⟨t⟩ hrow h1]
            exact e1
          · rw [← typeAt_appendCell_old (r₀ + 2) c₀ ⟨t⟩ hrow h2]
            exact e2

theorem cellAt_append_nil (grid : Grid) (r c : Nat) :
    cellAt (grid ++ [[]]) r c = cellAt grid r c := by
  by_cases hr : r < grid.length
  · unfold cellAt
    rw [List.getElem?_append_left hr]
  · have h1 : grid.length ≤ r := by omega
    rw [cellAt_of_len_le c h1]
    by_cases he : r = grid.length
    · subst he
      unfold cellAt
      rw [List.getElem?_concat_length]
      rfl
    · rw [cellAt_of_len_le c (by simp only [List.length_append]; simp; omega)]

theorem NoTriple_append_nil {grid : Grid} (hT : NoTriple grid) :
    NoTriple (grid ++ [[]]) := by
  have e : ∀ r c, typeAt (grid ++ [[]]) r c = typeAt grid r c := by
    intro r c
    unfold typeAt
    rw [cellAt_append_nil]
  exact ⟨fun r c t h => hT.1 r c t (by rwa [e, e, e] at h),
    fun r c t h => hT.2 r c t (by rwa [e, e, e] at h)⟩

theorem pickGemType_sound {k : Nat} {rand : Nat → Nat} {grid : Grid} {r c : Nat} :
    ∀ {fuel i t i'}, pickGemType k rand grid r c fuel i = some (t, i') →
      wouldCreateMatch grid r c t = false := by
  intro fuel
  induction fuel with
  | zero => intro i t i' h; exact Option.noConfusion h
  | succ fuel ih =>
    intro i t i' h
    unfold pickGemType at h
    by_cases hw : wouldCreateMatch grid r c (rand i % k) = true
    · rw [if_pos hw] at h
      exact ih h
    · rw [if_neg hw] at h
      have ht : rand i % k = t := congrArg Prod.fst (Option.some.inj h)
      rw [← ht]
      exact Bool.eq_false_iff.mpr hw

theorem fillRowCells_inv {k : Nat} {rand : Nat → Nat} {fuel r : Nat} :
    ∀ {cnt : Nat} {grid : Grid} {c i : Nat} {out : Grid × Nat},
      fillRowCells k rand fuel r grid c cnt i = some out →
      grid.length = r + 1 →
      (∃ row, grid[r]? = some row ∧ row.length = c) →
      NoTriple grid →
      out.1.length = r + 1 ∧ NoTriple out.1 := by
  intro cnt
  induction cnt with
  | zero =>
    intro grid c i out h hlen _ hT
    cases h
    exact ⟨hlen, hT⟩
  | succ cnt ih =>
    intro grid c i out h hlen hrow hT
    obtain ⟨row, hrow, hrlen⟩ := hrow
    unfold fillRowCells at h
    rcases hp : pickGemType k rand grid r c fuel i with _ | ⟨t, i'⟩
    · rw [hp] at h
      exact Option.noConfusion h
    · rw [hp] at h
      have hW : wouldCreateMatch grid r c t = false := pickGemType_sound hp
      have hT' : NoTriple (appendCell grid r ⟨t⟩) :=
        NoTriple_appendCell hT hrow hlen (by rwa [hrlen])
      refine ih h ?_ ?_ hT'
      · rw [appendCell_length]
        exact hlen
      · exact ⟨row ++ [some ⟨t⟩], appendCell_row ⟨t⟩ hrow, by simp; omega⟩

theorem fillRows_inv {k : Nat} {rand : Nat → Nat} {fuel cols : Nat} :
    ∀ {cnt : Nat} {grid : Grid} {r i : Nat} {out : Grid × Nat},
      fillRows k rand fuel cols grid r cnt i = some out →
      grid.length = r → NoTriple grid → NoTriple out.1 := by
  intro cnt
  induction cnt with
  | zero =>
    intro grid r i out h _ hT
    cases h
    exact hT
  | succ cnt ih =>
    intro grid r i out h hlen hT
    unfold fillRows at h
    rcases hf : fillRowCells k rand fuel r (grid ++ [[]]) 0 cols i with _ | ⟨g', i'⟩
    · rw [hf] at h
      exact Option.noConfusion h
    · rw [hf] at h
      have hlen1 : (grid ++ [[]]).length = r + 1 := by simp [hlen]
      have hrow1 : (grid ++ [[]])[r]? = some ([] : List (Option Gem)) := by
        rw [← hlen]
        exact List.getElem?_concat_length grid []
      obtain ⟨hglen, hgT⟩ := fillRowCells_inv hf hlen1 ⟨[], hrow1, rfl⟩
        (NoTriple_append_nil hT)
      exact ih h hglen hgT

/-- The cells counted by the inner horizontal loop of
Match3Game.findAllMatches all hold type t. -/
theorem gameRunH_mem {grid : Grid} {r t : Nat} :
    ∀ {fuel i j}, j < gameRunH grid r t i fuel → typeAt grid r (i + j) = some t := by
  intro fuel
  induction fuel with
  | zero => intro i j h; exact absurd h (by simp [gameRunH])
  | succ fuel ih =>
    intro i j h
    unfold gameRunH at h
    by_cases ht : typeAt grid r i = some t
    · rw [if_pos ht] at h
      cases j with
      | zero => exact ht
      | succ j =>
        have : i + (j + 1) = (i + 1) + j := by omega
        rw [this]
        exact ih (by omega)
    · rw [if_neg ht] at h
      omega

/-- The cells counted by the inner vertical loop of
Match3Game.findAllMatches all hold type t. -/
theorem gameRunV_mem {grid : Grid} {c t : Nat} :
    ∀ {fuel i j}, j < gameRunV grid c t i fuel → typeAt grid (i + j) c = some t := by
  intro fuel
  induction fuel with
  | zero => intro i j h; exact absurd h (by simp [gameRunV])
  | succ fuel ih =>
    intro i j h
    unfold gameRunV at h
    by_cases ht : typeAt grid i c = some t
    · rw [if_pos ht] at h
      cases j with
      | zero => exact ht
      | succ j =>
        have : i + (j + 1) = (i + 1) + j := by omega
        rw [this]
        exact ih (by omega)
    · rw [if_neg ht] at h
      omega

/-- A board with no three consecutive equal-typed slots has an empty
Match3Game.findAllMatches scan, whatever loop bounds are used. -/
theorem gameFindAllMatches_empty_of_NoTriple {grid : Grid} (hT : NoTriple grid)
    (rows cols : Nat) : gameFindAllMatches grid rows cols = ∅ := by
  rw [Finset.eq_empty_iff_forall_not_mem]
  intro x hx
  rw [gameFindAllMatches, Finset.mem_union] at hx
  rcases hx with hx | hx
  · rw [Finset.mem_biUnion] at hx
    obtain ⟨r, _, hx⟩ := hx
    rw [Finset.mem_biUnion] at hx
    obtain ⟨c, _, hx⟩ := hx
    unfold gameHorizAt at hx
    rcases ht : typeAt grid r c with _ | t
    · rw [ht] at hx
      exact absurd hx (by simp)
    · rw [ht] at hx
      by_cases hlen : 3 ≤ 1 + gameRunH grid r t (c + 1) (cols - (c + 1))
      · have h1 : typeAt grid r (c + 1) = some t := by
          have hh := @gameRunH_mem grid r t (cols - (c + 1)) (c + 1) 0 (by omega)
          simpa using hh
        have h2 : typeAt grid r (c + 2) = some t := by
          have hh := @gameRunH_mem grid r t (cols - (c + 1)) (c + 1) 1 (by omega)
          have e : c + 1 + 1 = c + 2 := by omega
          rwa [e] at hh
        exact hT.1 r c t ⟨ht, h1, h2⟩
      · simp [hlen] at hx
  · rw [Finset.mem_biUnion] at hx
    obtain ⟨c, _, hx⟩ := hx
    rw [Finset.mem_biUnion] at hx
    obtain ⟨r, _, hx⟩ := hx
    unfold gameVertAt at hx
    rcases ht : typeAt grid r c with _ | t
    · rw [ht] at hx
      exact absurd hx (by simp)
    · rw [ht] at hx
      by_cases hlen : 3 ≤ 1 + gameRunV grid c t (r + 1) (rows - (r + 1))
      · have h1 : typeAt grid (r + 1) c = some t := by
          have hh := @gameRunV_mem grid c t (rows - (r + 1)) (r + 1) 0 (by omega)
          simpa using hh
        have h2 : typeAt grid (r + 2) c = some t := by
          have hh := @gameRunV_mem grid c t (rows - (r + 1)) (r + 1) 1 (by omega)
          have e : r + 1 + 1 = r + 2 := by omega
          rwa [e] at hh
        exact hT.2 r c t ⟨ht, h1, h2⟩
      · simp [hlen] at hx

/-- C2 amended: every board a completed initializeGrid run returns is
match-free; the anti-match guard applied to each placed cell excludes
every run of three, horizontal and vertical. -/
theorem initializeGrid_no_matches (rows cols k : Nat) (rand : Nat → Nat) (fuel : Nat)
    (grid : Grid) (h : initializeGrid rows cols k rand fuel = some grid) :
    gameFindAllMatches grid rows cols = ∅ := by
  unfold initializeGrid at h
  rcases hf : fillRows k rand fuel cols [] 0 rows 0 with _ | ⟨g', i'⟩
  · rw [hf] at h
    exact Option.noConfusion h
  · rw [hf] at h
    have hg : g' = grid := Option.some.inj h
    have hT : NoTriple g' := fillRows_inv hf rfl
      ⟨fun r c t hh => by
        rw [show typeAt ([] : Grid) r c = none from rfl] at hh
        exact Option.noConfusion hh.1,
       fun r c t hh => by
        rw [show typeAt ([] : Grid) r c = none from rfl] at hh
        exact Option.noConfusion hh.1⟩
    rw [← hg]
    exact gameFindAllMatches_empty_of_NoTriple hT rows cols

/-- C2 counterexample: a completed initializeGrid run (1-by-3 board,
3 types) whose board has no matches but also no valid move, refuting
the claimed invariant that hasValidMove is true after generation: the
base-revision initializeGrid never checks hasValidMove and has no
regeneration loop. -/
theorem initializeGrid_stuck_board_cex :
    initializeGrid 1 3 3 exRand 5 = some exGrid ∧
    gameFindAllMatches exGrid 1 3 = ∅ ∧
    (hasValidMoves exGrid [[true, true, true]] 1 3).1 = false := by
  refine ⟨by decide, by decide, by decide⟩

/-- C2 amended witness: the no-match conclusion evaluated on that same
completed generation run. -/
theorem initializeGrid_no_matches_witness : gameFindAllMatches exGrid 1 3 = ∅ :=
  initializeGrid_no_matches 1 3 3 exRand 5 exGrid (by decide)

theorem typeAt_bounds {grid : Grid} {r c t : Nat} (h : typeAt grid r c = some t) :
    ∃ row, grid[r]? = some row ∧ c < row.length := by
  rcases hrow : grid[r]? with _ | row
  · exfalso
    have hnone : cellAt grid r c = none := by
      unfold cellAt
      rw [hrow]
      rfl
    simp [typeAt, hnone] at h
  · refine ⟨row, rfl, ?_⟩
    by_cases hlt : c < row.length
    · exact hlt
    · exfalso
      have hnone : cellAt grid r c = none := cellAt_of_row_len_le hrow (by omega)
      simp [typeAt, hnone] at h

/-- The cells counted by the horizontal scan loop of
MatchValidator.findAllMatches are playable and hold type t. -/
theorem mvRunH_mem {grid : Grid} {mask : Mask} {r t : Nat} :
    ∀ {fuel i j}, j < mvRunH grid mask r t i fuel →
      maskAt mask r (i + j) = true ∧ typeAt grid r (i + j) = some t := by
  intro fuel
  induction fuel with
  | zero => intro i j h; exact absurd h (by simp [mvRunH])
  | succ fuel ih =>
    intro i j h
    unfold mvRunH at h
    by_cases hm : maskAt mask r i = false
    · rw [if_pos hm] at h
      omega
    · rw [if_neg hm] at h
      by_cases ht : typeAt grid r i = some t
      · rw [if_pos ht] at h
        cases j with
        | zero => exact ⟨Bool.not_eq_false _ |>.mp hm, ht⟩
        | succ j =>
          have e : i + (j + 1) = (i + 1) + j := by omega
          rw [e]
          exact ih (by omega)
      · rw [if_neg ht] at h
        omega

theorem mvRunV_mem {grid : Grid} {mask : Mask} {c t : Nat} :
    ∀ {fuel i j}, j < mvRunV grid mask c t i fuel →
      maskAt mask (i + j) c = true ∧ typeAt grid (i + j) c = some t := by
  intro fuel
  induction fuel with
  | zero => intro i j h; exact absurd h (by simp [mvRunV])
  | succ fuel ih =>
    intro i j h
    unfold mvRunV at h
    by_cases hm : maskAt mask i c = false
    · rw [if_pos hm] at h
      omega
    · rw [if_neg hm] at h
      by_cases ht : typeAt grid i c = some t
      · rw [if_pos ht] at h
        cases j with
        | zero => exact ⟨Bool.not_eq_false _ |>.mp hm, ht⟩
        | succ j =>
          have e : i + (j + 1) = (i + 1) + j := by omega
          rw [e]
          exact ih (by omega)
      · rw [if_neg ht] at h
        omega

/-- The horizontal scan counts at least as far as any window of
playable same-typed cells starting at its scan position. -/
theorem mvRunH_ge {grid : Grid} {mask : Mask} {r t : Nat} :
    ∀ {n fuel i}, n ≤ fuel →
      (∀ j < n, maskAt mask r (i + j) = true ∧ typeAt grid r (i + j) = some t) →
      n ≤ mvRunH grid mask r t i fuel := by
  intro n
  induction n with
  | zero => intro fuel i _ _; omega
  | succ n ih =>
    intro fuel i hn hall
    obtain ⟨fuel, rfl⟩ : ∃ f, fuel = f + 1 := ⟨fuel - 1, by omega⟩
    obtain ⟨hm0, ht0⟩ := hall 0 (by omega)
    rw [Nat.add_zero] at hm0 ht0
    unfold mvRunH
    rw [if_neg (by rw [hm0]; exact fun hh => Bool.noConfusion hh), if_pos ht0]
    have hrec : n ≤ mvRunH grid mask r t (i + 1) fuel := by
      refine ih (by omega) ?_
      intro j hj
      have e : i + 1 + j = i + (j + 1) := by omega
      rw [e]
      exact hall (j + 1) (by omega)
    omega

theorem mvRunV_ge {grid : Grid} {mask : Mask} {c t : Nat} :
    ∀ {n fuel i}, n ≤ fuel →
      (∀ j < n, maskAt mask (i + j) c = true ∧ typeAt grid (i + j) c = some t) →
      n ≤ mvRunV grid mask c t i fuel := by
  intro n
  induction n with
  | zero => intro fuel i _ _; omega
  | succ n ih =>
    intro fuel i hn hall
    obtain ⟨fuel, rfl⟩ : ∃ f, fuel = f + 1 := ⟨fuel - 1, by omega⟩
    obtain ⟨hm0, ht0⟩ := hall 0 (by omega)
    rw [Nat.add_zero] at hm0 ht0
    unfold mvRunV
    rw [if_neg (by rw [hm0]; exact fun hh => Bool.noConfusion hh), if_pos ht0]
    have hrec : n ≤ mvRunV grid mask c t (i + 1) fuel := by
      refine ih (by omega) ?_
      intro j hj
      have e : i + 1 + j = i + (j + 1) := by omega
      rw [e]
      exact hall (j + 1) (by omega)
    omega

/-- Membership in the contribution of one horizontal scan start. -/
theorem mem_mvHorizAt {grid : Grid} {mask : Mask} {cols r0 c0 : Nat} {x : Nat × Nat} :
    x ∈ mvHorizAt grid mask cols r0 c0 ↔
      ∃ t, typeAt grid r0 c0 = some t ∧ maskAt mask r0 c0 = true ∧
        3 ≤ 1 + mvRunH grid mask r0 t (c0 + 1) (cols - (c0 + 1)) ∧
        ∃ j < 1 + mvRunH grid mask r0 t (c0 + 1) (cols - (c0 + 1)), x = (r0, c0 + j) := by
  rcases ht : typeAt grid r0 c0 with _ | t
  · simp [mvHorizAt, ht]
  · simp only [mvHorizAt, ht]
    by_cases hm : maskAt mask r0 c0 = false
    · rw [if_pos hm]
      simp [hm]
    · rw [if_neg hm]
      have hm' : maskAt mask r0 c0 = true := Bool.not_eq_false _ |>.mp hm
      by_cases hlen : 3 ≤ 1 + mvRunH grid mask r0 t (c0 + 1) (cols - (c0 + 1))
      · rw [if_pos hlen]
        simp only [List.mem_toFinset, List.mem_map, List.mem_range, hm', hlen]
        constructor
        · rintro ⟨j, hj, rfl⟩
          exact ⟨t, rfl, trivial, hlen, j, hj, rfl⟩
        · rintro ⟨t', ht', _, _, j, hj, rfl⟩
          have he : t = t' := Option.some.inj ht'
          subst he
          exact ⟨j, hj, rfl⟩
      · rw [if_neg hlen]
        simp only [Finset.not_mem_empty, false_iff]
        rintro ⟨t', ht', _, hlen', _⟩
        have he : t = t' := Option.some.inj ht'
        subst he
        exact hlen hlen'

/-- Membership in the contribution of one vertical scan start. -/
theorem mem_mvVertAt {grid : Grid} {mask : Mask} {rows c0 r0 : Nat} {x : Nat × Nat} :
    x ∈ mvVertAt grid mask rows c0 r0 ↔
      ∃ t, typeAt grid r0 c0 = some t ∧ maskAt mask r0 c0 = true ∧
        3 ≤ 1 + mvRunV grid mask c0 t (r0 + 1) (rows - (r0 + 1)) ∧
        ∃ j < 1 + mvRunV grid mask c0 t (r0 + 1) (rows - (r0 + 1)), x = (r0 + j, c0) := by
  rcases ht : typeAt grid r0 c0 with _ | t
  · simp [mvVertAt, ht]
  · simp only [mvVertAt, ht]
    by_cases hm : maskAt mask r0 c0 = false
    · rw [if_pos hm]
      simp [hm]
    · rw [if_neg hm]
      have hm' : maskAt mask r0 c0 = true := Bool.not_eq_false _ |>.mp hm
      by_cases hlen : 3 ≤ 1 + mvRunV grid mask c0 t (r0 + 1) (rows - (r0 + 1))
      · rw [if_pos hlen]
        simp only [List.mem_toFinset, List.mem_map, List.mem_range, hm', hlen]
        constructor
        · rintro ⟨j, hj, rfl⟩
          exact ⟨t, rfl, trivial, hlen, j, hj, rfl⟩
        · rintro ⟨t', ht', _, _, j, hj, rfl⟩
          have he : t = t' := Option.some.inj ht'
          subst he
          exact ⟨j, hj, rfl⟩
      · rw [if_neg hlen]
        simp only [Finset.not_mem_empty, false_iff]
        rintro ⟨t', ht', _, hlen', _⟩
        have he : t = t' := Option.some.inj ht'
        subst he
        exact hlen hlen'

/-- A horizontal window certificate puts its slot in the scan set. -/
theorem specMatchedH_mem {grid : Grid} {mask : Mask} {rows cols r c : Nat}
    (hrows : grid.length = rows) (hcols : ∀ row ∈ grid, row.length = cols)
    (h : SpecMatchedH grid mask r c) :
    (r, c) ∈ (Finset.range rows).biUnion fun r0 =>
      (Finset.range (cols - 2)).biUnion fun c0 => mvHorizAt grid mask cols r0 c0 := by
  obtain ⟨a, len, t, h3, hac, hcl, hall⟩ := h
  have hstart := hall 0 (by omega)
  rw [Nat.add_zero] at hstart
  obtain ⟨row, hrow, hclt⟩ := typeAt_bounds hstart.2
  have hr : r < rows := by
    rw [← hrows]
    exact (List.getElem?_eq_some.mp hrow).1
  have hrowlen : row.length = cols := hcols row (List.getElem?_mem hrow)
  have hend := hall 2 (by omega)
  obtain ⟨row2, hrow2, hclt2⟩ := typeAt_bounds hend.2
  rw [hrow] at hrow2
  have he2 : row2 = row := (Option.some.inj hrow2).symm
  rw [he2] at hclt2
  have ha2 : a + 2 < cols := by omega
  have hrun : len - 1 ≤ mvRunH grid mask r t (a + 1) (cols - (a + 1)) := by
    have hendlast := hall (len - 1) (by omega)
    obtain ⟨rowl, hrowl, hcltl⟩ := typeAt_bounds hendlast.2
    rw [hrow] at hrowl
    have hel : rowl = row := (Option.some.inj hrowl).symm
    rw [hel] at hcltl
    refine mvRunH_ge (by omega) ?_
    intro j hj
    have e : a + 1 + j = a + (j + 1) := by omega
    rw [e]
    exact hall (j + 1) (by omega)
  rw [Finset.mem_biUnion]
  refine ⟨r, Finset.mem_range.mpr hr, ?_⟩
  rw [Finset.mem_biUnion]
  refine ⟨a, Finset.mem_range.mpr (by omega), ?_⟩
  rw [mem_mvHorizAt]
  exact ⟨t, hstart.2, hstart.1, by omega, c - a, by omega, by
    have e : a + (c - a) = c := by omega
    rw [e]⟩

/-- A vertical window certificate puts its slot in the scan set. -/
theorem specMatchedV_mem {grid : Grid} {mask : Mask} {rows cols r c : Nat}
    (hrows : grid.length = rows) (hcols : ∀ row ∈ grid, row.length = cols)
    (h : SpecMatchedV grid mask r c) :
    (r, c) ∈ (Finset.range cols).biUnion fun c0 =>
      (Finset.range (rows - 2)).biUnion fun r0 => mvVertAt grid mask rows c0 r0 := by
  obtain ⟨a, len, t, h3, har, hrl, hall⟩ := h
  have hstart := hall 0 (by omega)
  rw [Nat.add_zero] at hstart
  obtain ⟨row, hrow, hclt⟩ := typeAt_bounds hstart.2
  have hc : c < cols := by
    rw [← hcols row (List.getElem?_mem hrow)]
    exact hclt
  have hend := hall 2 (by omega)
  obtain ⟨row2, hrow2, _⟩ := typeAt_bounds hend.2
  have ha2 : a + 2 < rows := by
    rw [← hrows]
    exact (List.getElem?_eq_some.mp hrow2).1
  have hrun : len - 1 ≤ mvRunV grid mask c t (a + 1) (rows - (a + 1)) := by
    have hendlast := hall (len - 1) (by omega)
    obtain ⟨rowl, hrowl, _⟩ := typeAt_bounds hendlast.2
    have hlast : a + (len - 1) < rows := by
      rw [← hrows]
      exact (List.getElem?_eq_some.mp hrowl).1
    refine mvRunV_ge (by omega) ?_
    intro j hj
    have e : a + 1 + j = a + (j + 1) := by omega
    rw [e]
    exact hall (j + 1) (by omega)
  rw [Finset.mem_biUnion]
  refine ⟨c, Finset.mem_range.mpr hc, ?_⟩
  rw [Finset.mem_biUnion]
  refine ⟨a, Finset.mem_range.mpr (by omega), ?_⟩
  rw [mem_mvVertAt]
  exact ⟨t, hstart.2, hstart.1, by omega, r - a, by omega, by
    have e : a + (r - a) = r := by omega
    rw [e]⟩

/-- C4: on a well-formed rows-by-cols board, findAllMatches holds a
slot exactly when that slot lies in some horizontal or vertical window
of at least 3 consecutive playable, occupied, same-typed cells (runs
terminate at blocked and empty cells by construction of the windows);
and the example row A A A B B B B A A A yields all 10 slots in one
pass. -/
theorem findAllMatches_runs_characterization :
    (∀ (grid : Grid) (mask : Mask) (rows cols : Nat),
      grid.length = rows → (∀ row ∈ grid, row.length = cols) →
      ∀ r c, ((r, c) ∈ findAllMatchesMV grid mask rows cols ↔
        SpecMatchedH grid mask r c ∨ SpecMatchedV grid mask r c)) ∧
    findAllMatchesMV exRow10 exMask10 1 10 =
      {(0, 0), (0, 1), (0, 2), (0, 3), (0, 4), (0, 5), (0, 6), (0, 7), (0, 8), (0, 9)} := by
  constructor
  · intro grid mask rows cols hrows hcols r c
    constructor
    · intro hx
      rw [findAllMatchesMV, Finset.mem_union] at hx
      rcases hx with hx | hx
      · left
        rw [Finset.mem_biUnion] at hx
        obtain ⟨r0, _, hx⟩ := hx
        rw [Finset.mem_biUnion] at hx
        obtain ⟨c0, _, hx⟩ := hx
        rw [mem_mvHorizAt] at hx
        obtain ⟨t, ht, hm, hlen, j, hj, hx⟩ := hx
        have hr : r = r0 := congrArg Prod.fst hx
        have hc : c = c0 + j := congrArg Prod.snd hx
        subst hr
        refine ⟨c0, 1 + mvRunH grid mask r t (c0 + 1) (cols - (c0 + 1)), t,
          hlen, by omega, by omega, ?_⟩
        intro j' hj'
        cases j' with
        | zero => exact ⟨hm, ht⟩
        | succ j' =>
          have e : c0 + (j' + 1) = (c0 + 1) + j' := by omega
          rw [e]
          exact @mvRunH_mem grid mask r t (cols - (c0 + 1)) (c0 + 1) j' (by omega)
      · right
        rw [Finset.mem_biUnion] at hx
        obtain ⟨c0, _, hx⟩ := hx
        rw [Finset.mem_biUnion] at hx
        obtain ⟨r0, _, hx⟩ := hx
        rw [mem_mvVertAt] at hx
        obtain ⟨t, ht, hm, hlen, j, hj, hx⟩ := hx
        have hr : r = r0 + j := congrArg Prod.fst hx
        have hc : c = c0 := congrArg Prod.snd hx
        subst hc
        refine ⟨r0, 1 + mvRunV grid mask c t (r0 + 1) (rows - (r0 + 1)), t,
          hlen, by omega, by omega, ?_⟩
        intro j' hj'
        cases j' with
        | zero => exact ⟨hm, ht⟩
        | succ j' =>
          have e : r0 + (j' + 1) = (r0 + 1) + j' := by omega
          rw [e]
          exact @mvRunV_mem grid mask c t (rows - (r0 + 1)) (r0 + 1) j' (by omega)
    · intro hx
      rw [findAllMatchesMV, Finset.mem_union]
      rcases hx with hx | hx
      · exact Or.inl (specMatchedH_mem hrows hcols hx)
      · exact Or.inr (specMatchedV_mem hrows hcols hx)
  · decide

/-- C4 witness: the characterization applied to the example row at its
first slot. -/
theorem findAllMatches_runs_characterization_witness :
    (0, 0) ∈ findAllMatchesMV exRow10 exMask10 1 10 ↔
      SpecMatchedH exRow10 exMask10 0 0 ∨ SpecMatchedV exRow10 exMask10 0 0 :=
  findAllMatches_runs_characterization.1 exRow10 exMask10 1 10 (by decide) (by decide) 0 0

/-! ### Gravity toolkit: equation lemmas for the per-line functions -/

theorem collectGems_nil_mask {α : Type} (cs : List (Option α)) (i : Nat) :
    collectGems [] cs i = [] := by cases cs <;> rfl

theorem collectGems_nil_line {α : Type} (ms : List Bool) (i : Nat) :
    collectGems ms ([] : List (Option α)) i = [] := by cases ms <;> rfl

theorem collectGems_some_true {α : Type} (ms : List Bool) (g : α)
    (cs : List (Option α)) (i : Nat) :
    collectGems (true :: ms) (some g :: cs) i = (g, i) :: collectGems ms cs (i + 1) := rfl

theorem collectGems_some_false {α : Type} (ms : List Bool) (g : α)
    (cs : List (Option α)) (i : Nat) :
    collectGems (false :: ms) (some g :: cs) i = collectGems ms cs (i + 1) := rfl

theorem collectGems_none {α : Type} (m : Bool) (ms : List Bool)
    (cs : List (Option α)) (i : Nat) :
    collectGems (m :: ms) (none :: cs) i = collectGems ms cs (i + 1) := by
  cases m <;> rfl

theorem clearPlayable_cons {α : Type} (m : Bool) (ms : List Bool) (c : Option α)
    (cs : List (Option α)) :
    clearPlayable (m :: ms) (c :: cs) = (if m then none else c) :: clearPlayable ms cs := rfl

theorem firstPlayable_cons (m : Bool) (ms : List Bool) (i : Nat) :
    firstPlayable (m :: ms) i = if m then some i else firstPlayable ms (i + 1) := rfl

theorem playableIdxsFrom_cons (m : Bool) (ms : List Bool) (i : Nat) :
    playableIdxsFrom (m :: ms) i =
      if m then i :: playableIdxsFrom ms (i + 1) else playableIdxsFrom ms (i + 1) := by
  cases m <;> rfl

theorem specPlace_true_cons {α : Type} (ms : List Bool) (c : Option α)
    (cs : List (Option α)) (s : Option α) (ss : List (Option α)) :
    specPlace (true :: ms) (c :: cs) (s :: ss) = s :: specPlace ms cs ss := rfl

theorem specPlace_true_nil {α : Type} (ms : List Bool) (c : Option α)
    (cs : List (Option α)) :
    specPlace (true :: ms) (c :: cs) [] = none :: specPlace ms cs [] := rfl

theorem specPlace_false {α : Type} (ms : List Bool) (c : Option α)
    (cs : List (Option α)) (ss : List (Option α)) :
    specPlace (false :: ms) (c :: cs) ss = c :: specPlace ms cs ss := rfl

theorem specPlace_nil_mask {α : Type} (cs ss : List (Option α)) :
    specPlace [] cs ss = [] := rfl

theorem specPlace_nil_line {α : Type} (m : Bool) (ms : List Bool) (ss : List (Option α)) :
    specPlace (m :: ms) ([] : List (Option α)) ss = [] := by
  cases m <;> cases ss <;> rfl

theorem setList_cons {α : Type} (line : List (Option α)) (g : α) (t : Nat)
    (rest : List (α × Nat)) :
    setList line ((g, t) :: rest) = setList (line.set t (some g)) rest := rfl

theorem placeAtTargets_cons {α : Type} (line : List (Option α)) (moved : Bool)
    (g : α) (o t : Nat) (rest : List ((α × Nat) × Nat)) :
    placeAtTargets line moved (((g, o), t) :: rest) =
      placeAtTargets (line.set t (some g)) (moved || decide (t ≠ o)) rest := rfl

/-! ### Gravity toolkit: index offsets, peeling and zip lemmas -/

theorem collectGems_offset {α : Type} :
    ∀ (mask : List Bool) (line : List (Option α)) (i : Nat),
      collectGems mask line i =
        (collectGems mask line 0).map (fun p => (p.1, p.2 + i)) := by
  intro mask
  induction mask with
  | nil => intro line i; rw [collectGems_nil_mask, collectGems_nil_mask]; rfl
  | cons m ms ih =>
    intro line i
    cases line with
    | nil => rw [collectGems_nil_line, collectGems_nil_line]; rfl
    | cons c cs =>
      have harith : ∀ p : α × Nat, (p.1, p.2 + (i + 1)) = ((p.1, p.2 + 1).1, (p.1, p.2 + 1).2 + i) := by
        intro p
        show (p.1, p.2 + (i + 1)) = (p.1, p.2 + 1 + i)
        rw [Nat.add_comm i 1, Nat.add_assoc]
      have htail : collectGems ms cs (i + 1) =
          (collectGems ms cs 1).map (fun p => (p.1, p.2 + i)) := by
        rw [ih cs (i + 1), ih cs 1, List.map_map]
        apply List.map_congr_left
        intro p _
        exact harith p
      cases c with
      | none => rw [collectGems_none, collectGems_none, htail]
      | some g =>
        cases m with
        | false => rw [collectGems_some_false, collectGems_some_false, htail]
        | true =>
          rw [collectGems_some_true, collectGems_some_true, htail]
          simp

theorem playableIdxsFrom_offset :
    ∀ (mask : List Bool) (i : Nat),
      playableIdxsFrom mask i = (playableIdxsFrom mask 0).map (· + i) := by
  intro mask
  induction mask with
  | nil => intro i; rfl
  | cons m ms ih =>
    intro i
    have htail : playableIdxsFrom ms (i + 1) =
        (playableIdxsFrom ms 1).map (· + i) := by
      rw [ih (i + 1), ih 1, List.map_map]
      apply List.map_congr_left
      intro x _
      show x + (i + 1) = x + 1 + i
      omega
    cases m with
    | false =>
      rw [playableIdxsFrom_cons, playableIdxsFrom_cons]
      simp only [if_neg Bool.false_ne_true]
      exact htail
    | true =>
      rw [playableIdxsFrom_cons, playableIdxsFrom_cons, htail]
      simp

theorem firstPlayable_offset :
    ∀ (mask : List Bool) (i : Nat),
      firstPlayable mask i = (firstPlayable mask 0).map (· + i) := by
  intro mask
  induction mask with
  | nil => intro i; rfl
  | cons m ms ih =>
    intro i
    cases m with
    | true =>
      rw [firstPlayable_cons, firstPlayable_cons]
      simp
    | false =>
      rw [firstPlayable_cons, firstPlayable_cons]
      simp only [if_neg Bool.false_ne_true]
      rw [ih (i + 1), ih 1, Option.map_map]
      cases firstPlayable ms 0 with
      | none => rfl
      | some x =>
        show some (x + (i + 1)) = some (x + 1 + i)
        congr 1
        omega

theorem map_zip_fst {α β : Type} :
    ∀ (as : List (α × Nat)) (bs : List β),
      (as.zip bs).map (fun q => (q.1.1, q.2)) = (as.map Prod.fst).zip bs := by
  intro as
  induction as with
  | nil => intro bs; rfl
  | cons a as ih =>
    intro bs
    cases bs with
    | nil => rfl
    | cons b bs => simp [ih bs]

theorem map_zip_snd {α : Type} :
    ∀ (as : List α) (bs : List Nat) (f : Nat → Nat),
      (as.zip bs).map (fun p => (p.1, f p.2)) = as.zip (bs.map f) := by
  intro as
  induction as with
  | nil => intro bs f; rfl
  | cons a as ih =>
    intro bs f
    cases bs with
    | nil => rfl
    | cons b bs => simp [ih bs f]

theorem zip_take_len {α β : Type} :
    ∀ (as : List α) (bs : List β), as.zip (bs.take as.length) = as.zip bs := by
  intro as
  induction as with
  | nil => intro bs; rfl
  | cons a as ih =>
    intro bs
    cases bs with
    | nil => rfl
    | cons b bs =>
      show (a, b) :: as.zip (bs.take as.length) = (a, b) :: as.zip bs
      rw [ih bs]

theorem setList_peel {α : Type} :
    ∀ (ps : List (α × Nat)) (c : Option α) (cs : List (Option α)),
      setList (c :: cs) (ps.map fun p => (p.1, p.2 + 1)) = c :: setList cs ps := by
  intro ps
  induction ps with
  | nil => intro c cs; rfl
  | cons p ps ih =>
    intro c cs
    obtain ⟨g, t⟩ := p
    show setList ((c :: cs).set (t + 1) (some g)) _ = _
    show setList (c :: cs.set t (some g)) _ = _
    rw [ih c (cs.set t (some g))]
    rfl

theorem placeAtTargets_grid {α : Type} :
    ∀ (ps : List ((α × Nat) × Nat)) (line : List (Option α)) (moved : Bool),
      (placeAtTargets line moved ps).1 = setList line (ps.map fun q => (q.1.1, q.2)) := by
  intro ps
  induction ps with
  | nil => intro line moved; rfl
  | cons q ps ih =>
    intro line moved
    obtain ⟨⟨g, o⟩, t⟩ := q
    rw [placeAtTargets_cons, ih]
    rfl

theorem placeAtTargets_moved_noop {α : Type} :
    ∀ (ps : List ((α × Nat) × Nat)) (line : List (Option α)) (moved : Bool),
      (∀ q ∈ ps, q.1.2 = q.2) → (placeAtTargets line moved ps).2 = moved := by
  intro ps
  induction ps with
  | nil => intro line moved _; rfl
  | cons q ps ih =>
    intro line moved hall
    obtain ⟨⟨g, o⟩, t⟩ := q
    have ho : o = t := hall ((g, o), t) (List.mem_cons_self _ _)
    rw [placeAtTargets_cons, ih _ _ (fun q hq => hall q (List.mem_cons_of_mem _ hq))]
    subst ho
    simp

theorem clearPlayable_spec {α : Type} :
    ∀ (mask : List Bool) (line : List (Option α)), mask.length = line.length →
      clearPlayable mask line = specPlace mask line [] := by
  intro mask
  induction mask with
  | nil =>
    intro line h
    cases line with
    | nil => rfl
    | cons c cs => exact absurd h (by simp)
  | cons m ms ih =>
    intro line h
    cases line with
    | nil => exact absurd h (by simp)
    | cons c cs =>
      cases m with
      | true =>
        rw [clearPlayable_cons, specPlace_true_nil, if_pos rfl, ih cs (by simpa using h)]
      | false =>
        rw [clearPlayable_cons, specPlace_false, if_neg Bool.false_ne_true,
          ih cs (by simpa using h)]

theorem collectGems_nil_clear {α : Type} :
    ∀ (mask : List Bool) (line : List (Option α)),
      collectGems mask line 0 = [] → clearPlayable mask line = line := by
  intro mask
  induction mask with
  | nil => intro line _; rfl
  | cons m ms ih =>
    intro line h
    cases line with
    | nil => rfl
    | cons c cs =>
      have htail : collectGems ms cs 1 = [] → collectGems ms cs 0 = [] := by
        intro h1
        rw [collectGems_offset ms cs 1] at h1
        exact List.map_eq_nil_iff.mp h1
      cases c with
      | none =>
        rw [collectGems_none] at h
        rw [clearPlayable_cons, ih cs (htail h)]
        cases m <;> rfl
      | some g =>
        cases m with
        | true => rw [collectGems_some_true] at h; exact absurd h (by simp)
        | false =>
          rw [collectGems_some_false] at h
          rw [clearPlayable_cons, if_neg Bool.false_ne_true, ih cs (htail h)]

theorem specPlace_len {α : Type} :
    ∀ (mask : List Bool) (line : List (Option α)) (ss : List (Option α)),
      mask.length = line.length → (specPlace mask line ss).length = line.length := by
  intro mask
  induction mask with
  | nil =>
    intro line ss h
    cases line with
    | nil => rfl
    | cons c cs => exact absurd h (by simp)
  | cons m ms ih =>
    intro line ss h
    cases line with
    | nil => exact absurd h (by simp)
    | cons c cs =>
      have h' : ms.length = cs.length := by simpa using h
      cases m with
      | true =>
        cases ss with
        | nil => rw [specPlace_true_nil]; simp [ih cs [] h']
        | cons s ss => rw [specPlace_true_cons]; simp [ih cs ss h']
      | false => rw [specPlace_false]; simp [ih cs ss h']

theorem specPlace_specPlace {α : Type} :
    ∀ (mask : List Bool) (line : List (Option α)) (ss0 ss : List (Option α)),
      mask.length = line.length →
      specPlace mask (specPlace mask line ss0) ss = specPlace mask line ss := by
  intro mask
  induction mask with
  | nil => intro line ss0 ss _; rfl
  | cons m ms ih =>
    intro line ss0 ss h
    cases line with
    | nil => exact absurd h (by simp)
    | cons c cs =>
      have h' : ms.length = cs.length := by simpa using h
      cases m with
      | true =>
        cases ss0 with
        | nil =>
          cases ss with
          | nil =>
            simp only [specPlace_true_nil]
            rw [ih cs [] [] h']
          | cons s ss =>
            simp only [specPlace_true_nil, specPlace_true_cons]
            rw [ih cs [] ss h']
        | cons s0 ss0 =>
          cases ss with
          | nil =>
            simp only [specPlace_true_nil, specPlace_true_cons]
            rw [ih cs ss0 [] h']
          | cons s ss =>
            simp only [specPlace_true_cons]
            rw [ih cs ss0 ss h']
      | false =>
        simp only [specPlace_false]
        rw [ih cs ss0 ss h']

theorem playableIdxsFrom_len (mask : List Bool) :
    ∀ i, (playableIdxsFrom mask i).length = countPlayable mask := by
  induction mask with
  | nil => intro i; rfl
  | cons m ms ih =>
    intro i
    cases m with
    | true =>
      rw [playableIdxsFrom_cons, if_pos rfl]
      show (playableIdxsFrom ms (i + 1)).length + 1 = countPlayable (true :: ms)
      rw [ih (i + 1)]
      simp [countPlayable, List.filter]
    | false =>
      rw [playableIdxsFrom_cons, if_neg Bool.false_ne_true, ih (i + 1)]
      simp [countPlayable, List.filter]

theorem collectGems_le_countPlayable {α : Type} :
    ∀ (mask : List Bool) (line : List (Option α)),
      (collectGems mask line 0).length ≤ countPlayable mask := by
  intro mask
  induction mask with
  | nil => intro line; rw [collectGems_nil_mask]; simp
  | cons m ms ih =>
    intro line
    cases line with
    | nil => rw [collectGems_nil_line]; simp
    | cons c cs =>
      have hshift : (collectGems ms cs 1).length = (collectGems ms cs 0).length := by
        rw [collectGems_offset ms cs 1]
        simp
      have hmono : countPlayable ms ≤ countPlayable (m :: ms) := by
        cases m <;> simp [countPlayable, List.filter]
      cases c with
      | none =>
        rw [collectGems_none, hshift]
        exact le_trans (ih cs) hmono
      | some g =>
        cases m with
        | true =>
          rw [collectGems_some_true]
          have hc : countPlayable (true :: ms) = countPlayable ms + 1 := by
            simp [countPlayable, List.filter]
          rw [hc]
          simp only [List.length_cons, hshift]
          exact Nat.succ_le_succ (ih cs)
        | false =>
          rw [collectGems_some_false, hshift]
          exact le_trans (ih cs) hmono

/-! ### Gravity toolkit: write-index skipping and placement targets -/

theorem skipBlocked_nil : ∀ (w fuel : Nat), skipBlocked [] w fuel = w := by
  intro w fuel
  cases fuel with
  | zero => rfl
  | succ fuel =>
    show (if ([] : List Bool)[w]? = some false then _ else w) = w
    rw [if_neg (by simp)]

theorem skipBlocked_peel (m : Bool) (ms : List Bool) :
    ∀ (fuel w : Nat), skipBlocked (m :: ms) (w + 1) fuel = skipBlocked ms w fuel + 1 := by
  intro fuel
  induction fuel with
  | zero => intro w; rfl
  | succ fuel ih =>
    intro w
    show (if (m :: ms)[w + 1]? = some false then skipBlocked (m :: ms) (w + 2) fuel
      else w + 1) = (if ms[w]? = some false then skipBlocked ms (w + 1) fuel else w) + 1
    rw [List.getElem?_cons_succ]
    by_cases hb : ms[w]? = some false
    · rw [if_pos hb, if_pos hb, ih (w + 1)]
    · rw [if_neg hb, if_neg hb]

theorem skipBlocked_fuel (mask : List Bool) :
    ∀ (f f' w : Nat), mask.length ≤ w + f → mask.length ≤ w + f' →
      skipBlocked mask w f = skipBlocked mask w f' := by
  intro f
  induction f with
  | zero =>
    intro f' w hf hf'
    have hw : mask.length ≤ w := by omega
    show w = skipBlocked mask w f'
    cases f' with
    | zero => rfl
    | succ f' =>
      show w = if mask[w]? = some false then _ else w
      rw [if_neg (by rw [List.getElem?_eq_none hw]; simp)]
  | succ f ih =>
    intro f' w hf hf'
    show (if mask[w]? = some false then skipBlocked mask (w + 1) f else w) = _
    by_cases hb : mask[w]? = some false
    · have hwlt : w < mask.length := (List.getElem?_eq_some.mp hb).1
      cases f' with
      | zero => omega
      | succ f' =>
        rw [if_pos hb]
        show _ = if mask[w]? = some false then skipBlocked mask (w + 1) f' else w
        rw [if_pos hb]
        exact ih f' (w + 1) (by omega) (by omega)
    · rw [if_neg hb]
      cases f' with
      | zero => rfl
      | succ f' =>
        show w = if mask[w]? = some false then _ else w
        rw [if_neg hb]

theorem nextTargets_peel (m : Bool) (ms : List Bool) :
    ∀ (n w : Nat), nextTargets (m :: ms) (w + 1) n = (nextTargets ms w n).map (· + 1) := by
  intro n
  induction n with
  | zero => intro w; rfl
  | succ n ih =>
    intro w
    show (if (m :: ms).length ≤ w + 1 then []
      else (w + 1) :: nextTargets (m :: ms) (skipBlocked (m :: ms) (w + 2) (m :: ms).length) n) =
      List.map _ (if ms.length ≤ w then [] else w :: nextTargets ms (skipBlocked ms (w + 1) ms.length) n)
    by_cases hw : ms.length ≤ w
    · rw [if_pos (by simp; omega), if_pos hw]
      rfl
    · rw [if_neg (by simp; omega), if_neg hw]
      have hs : skipBlocked (m :: ms) (w + 2) (m :: ms).length =
          skipBlocked ms (w + 1) ms.length + 1 := by
        rw [show (m :: ms).length = ms.length + 1 from rfl]
        rw [skipBlocked_peel m ms (ms.length + 1) (w + 1)]
        rw [skipBlocked_fuel ms (ms.length + 1) ms.length (w + 1) (by omega) (by omega)]
      rw [hs, ih (skipBlocked ms (w + 1) ms.length)]
      rfl

theorem nextTargets_take :
    ∀ (mask : List Bool) (n : Nat),
      nextTargets mask (skipBlocked mask 0 mask.length) n =
        (playableIdxsFrom mask 0).take n := by
  intro mask
  induction mask with
  | nil =>
    intro n
    rw [skipBlocked_nil]
    cases n with
    | zero => rfl
    | succ n => rfl
  | cons m ms ih =>
    intro n
    cases m with
    | true =>
      have hsk : skipBlocked (true :: ms) 0 (true :: ms).length = 0 := by
        cases hl : (true :: ms).length with
        | zero => rfl
        | succ fuel =>
          show (if (true :: ms)[0]? = some false then _ else 0) = 0
          rw [if_neg (by simp)]
      rw [hsk]
      cases n with
      | zero => rfl
      | succ n =>
        show (if (true :: ms).length ≤ 0 then []
          else 0 :: nextTargets (true :: ms) (skipBlocked (true :: ms) 1 (true :: ms).length) n) = _
        rw [if_neg (by simp)]
        have hs : skipBlocked (true :: ms) 1 (true :: ms).length =
            skipBlocked ms 0 ms.length + 1 := by
          rw [show (true :: ms).length = ms.length + 1 from rfl]
          rw [show (1 : Nat) = 0 + 1 from rfl, skipBlocked_peel true ms (ms.length + 1) 0]
          rw [skipBlocked_fuel ms (ms.length + 1) ms.length 0 (by omega) (by omega)]
        rw [hs, nextTargets_peel true ms n _, ih n]
        rw [playableIdxsFrom_cons, if_pos rfl, playableIdxsFrom_offset ms 1]
        rw [List.take_succ_cons, List.map_take]
    | false =>
      have hs : skipBlocked (false :: ms) 0 (false :: ms).length =
          skipBlocked ms 0 ms.length + 1 := by
        cases hl : (false :: ms).length with
        | zero => exact absurd hl (by simp)
        | succ fuel =>
          show (if (false :: ms)[0]? = some false then skipBlocked (false :: ms) 1 fuel else 0) = _
          rw [if_pos (by simp)]
          have hfl : fuel = ms.length := by
            have := hl
            simp at this
            omega
          subst hfl
          rw [show (1 : Nat) = 0 + 1 from rfl, skipBlocked_peel false ms ms.length 0]
      rw [hs, nextTargets_peel false ms n _, ih n]
      rw [playableIdxsFrom_cons, if_neg Bool.false_ne_true, playableIdxsFrom_offset ms 1]
      rw [List.map_take]

theorem firstPlayable_skipBlocked :
    ∀ (mask : List Bool) (w0 : Nat), firstPlayable mask 0 = some w0 →
      skipBlocked mask 0 mask.length = w0 := by
  intro mask
  induction mask with
  | nil => intro w0 h; exact Option.noConfusion h
  | cons m ms ih =>
    intro w0 h
    cases m with
    | true =>
      rw [firstPlayable_cons, if_pos rfl] at h
      have h0 : w0 = 0 := (Option.some.inj h).symm
      subst h0
      show (if (true :: ms)[0]? = some false then _ else 0) = 0
      rw [if_neg (by simp)]
    | false =>
      rw [firstPlayable_cons, if_neg Bool.false_ne_true, firstPlayable_offset ms 1] at h
      cases hf : firstPlayable ms 0 with
      | none => rw [hf] at h; exact Option.noConfusion h
      | some w1 =>
        rw [hf] at h
        have hw : w0 = w1 + 1 := (Option.some.inj h).symm
        subst hw
        show (if (false :: ms)[0]? = some false then skipBlocked (false :: ms) 1 ms.length else 0) =
          w1 + 1
        rw [if_pos (by simp)]
        rw [show (1 : Nat) = 0 + 1 from rfl, skipBlocked_peel false ms ms.length 0]
        rw [ih w1 hf]

theorem firstPlayable_none_all_false :
    ∀ (mask : List Bool), firstPlayable mask 0 = none → ∀ m ∈ mask, m = false := by
  intro mask
  induction mask with
  | nil => intro _ m hm; exact absurd hm (by simp)
  | cons b ms ih =>
    intro h m hm
    cases b with
    | true => rw [firstPlayable_cons, if_pos rfl] at h; exact Option.noConfusion h
    | false =>
      rw [firstPlayable_cons, if_neg Bool.false_ne_true, firstPlayable_offset ms 1] at h
      have hms : firstPlayable ms 0 = none := by
        cases hf : firstPlayable ms 0 with
        | none => rfl
        | some x => rw [hf] at h; exact Option.noConfusion h
      rcases List.mem_cons.mp hm with hm | hm
      · exact hm
      · exact ih hms m hm

theorem collectGems_all_false {α : Type} :
    ∀ (mask : List Bool) (line : List (Option α)) (i : Nat),
      (∀ m ∈ mask, m = false) → collectGems mask line i = [] := by
  intro mask
  induction mask with
  | nil => intro line i _; rw [collectGems_nil_mask]
  | cons b ms ih =>
    intro line i hall
    have hb : b = false := hall b (List.mem_cons_self _ _)
    subst hb
    cases line with
    | nil => rw [collectGems_nil_line]
    | cons c cs =>
      have htail : ∀ m ∈ ms, m = false := fun m hm => hall m (List.mem_cons_of_mem _ hm)
      cases c with
      | none => rw [collectGems_none]; exact ih cs (i + 1) htail
      | some g => rw [collectGems_some_false]; exact ih cs (i + 1) htail

theorem playableIdxsFrom_nil_all_false :
    ∀ (mask : List Bool), playableIdxsFrom mask 0 = [] → ∀ m ∈ mask, m = false := by
  intro mask
  induction mask with
  | nil => intro _ m hm; exact absurd hm (by simp)
  | cons b ms ih =>
    intro h m hm
    cases b with
    | true =>
      rw [playableIdxsFrom_cons, if_pos rfl] at h
      exact List.noConfusion h
    | false =>
      rw [playableIdxsFrom_cons, if_neg Bool.false_ne_true, playableIdxsFrom_offset ms 1] at h
      have hms : playableIdxsFrom ms 0 = [] := List.map_eq_nil_iff.mp h
      rcases List.mem_cons.mp hm with hm | hm
      · exact hm
      · exact ih hms m hm

theorem placeGems_bridge {α : Type} :
    ∀ (gems : List (α × Nat)) (mask : List Bool) (line : List (Option α)) (w : Nat)
      (moved : Bool),
      placeGems mask line w moved gems =
        placeAtTargets line moved (gems.zip (nextTargets mask w gems.length)) := by
  intro gems
  induction gems with
  | nil => intro mask line w moved; rfl
  | cons p rest ih =>
    intro mask line w moved
    obtain ⟨g, o⟩ := p
    show (if mask.length ≤ w then (line, moved)
      else placeGems mask (line.set w (some g)) (skipBlocked mask (w + 1) mask.length)
        (moved || decide (w ≠ o)) rest) = _
    show _ = placeAtTargets line moved (((g, o) :: rest).zip
      (if mask.length ≤ w then []
        else w :: nextTargets mask (skipBlocked mask (w + 1) mask.length) rest.length))
    by_cases hw : mask.length ≤ w
    · rw [if_pos hw, if_pos hw]
      rfl
    · rw [if_neg hw, if_neg hw]
      rw [ih mask (line.set w (some g)) (skipBlocked mask (w + 1) mask.length)
        (moved || decide (w ≠ o))]
      rfl

/-! ### Gravity: characterization of the low-end pass -/

theorem countPlayable_true (ms : List Bool) :
    countPlayable (true :: ms) = countPlayable ms + 1 := by
  simp [countPlayable, List.filter]

theorem countPlayable_false (ms : List Bool) :
    countPlayable (false :: ms) = countPlayable ms := by
  simp [countPlayable, List.filter]

theorem setList_nil {α : Type} :
    ∀ (ps : List (α × Nat)), setList ([] : List (Option α)) ps = [] := by
  intro ps
  induction ps with
  | nil => rfl
  | cons p rest ih =>
    obtain ⟨g, t⟩ := p
    rw [setList_cons]
    show setList ([] : List (Option α)) rest = []
    exact ih

theorem setList_zip_low {α : Type} :
    ∀ (mask : List Bool) (line : List (Option α)) (gs : List α),
      mask.length = line.length → gs.length ≤ countPlayable mask →
      setList (clearPlayable mask line) (gs.zip (playableIdxsFrom mask 0)) =
        specPlace mask line (gs.map some) := by
  intro mask
  induction mask with
  | nil =>
    intro line gs h _
    cases line with
    | nil =>
      show setList (clearPlayable [] []) (gs.zip []) = []
      rw [List.zip_nil_right]
      rfl
    | cons c cs => exact absurd h (by simp)
  | cons m ms ih =>
    intro line gs h hcnt
    cases line with
    | nil => exact absurd h (by simp)
    | cons c cs =>
      have h' : ms.length = cs.length := by simpa using h
      cases m with
      | true =>
        cases gs with
        | nil =>
          show setList (clearPlayable (true :: ms) (c :: cs)) [] = _
          show clearPlayable (true :: ms) (c :: cs) = _
          rw [clearPlayable_spec (true :: ms) (c :: cs) h]
          rfl
        | cons g gs =>
          rw [clearPlayable_cons, if_pos rfl, playableIdxsFrom_cons, if_pos rfl,
            playableIdxsFrom_offset ms 1]
          show setList (none :: clearPlayable ms cs)
            ((g, 0) :: gs.zip ((playableIdxsFrom ms 0).map (· + 1))) = _
          rw [setList_cons]
          show setList (some g :: clearPlayable ms cs)
            (gs.zip ((playableIdxsFrom ms 0).map (· + 1))) = _
          rw [← map_zip_snd gs (playableIdxsFrom ms 0) (· + 1)]
          rw [setList_peel]
          rw [ih cs gs h' (by rw [countPlayable_true] at hcnt; simpa using hcnt)]
          rfl
      | false =>
        rw [clearPlayable_cons, if_neg Bool.false_ne_true, playableIdxsFrom_cons,
          if_neg Bool.false_ne_true, playableIdxsFrom_offset ms 1]
        rw [← map_zip_snd gs (playableIdxsFrom ms 0) (· + 1)]
        rw [setList_peel]
        rw [ih cs gs h' (by rwa [countPlayable_false] at hcnt)]
        rfl

theorem applyDownLine_of_empty {α : Type} {mask : List Bool} {line : List (Option α)}
    (hg : collectGems mask line 0 = []) : applyDownLine mask line = (line, false) := by
  simp [applyDownLine, hg]

theorem applyDownLine_of_first {α : Type} {mask : List Bool} {line : List (Option α)}
    {w0 : Nat} (hg : collectGems mask line 0 ≠ []) (hf : firstPlayable mask 0 = some w0) :
    applyDownLine mask line =
      placeGems mask (clearPlayable mask line) w0 false (collectGems mask line 0) := by
  simp only [applyDownLine, hf]
  rw [if_neg (by simpa [List.isEmpty_iff] using hg)]

/-- The grid effect of one applyDown pass on a line: the collected
tiles packed onto the first playable cells in order. -/
theorem applyDownLine_grid {α : Type} (mask : List Bool) (line : List (Option α))
    (h : mask.length = line.length) :
    (applyDownLine mask line).1 = specPackLow mask line (collectTiles mask line) := by
  by_cases hg : collectGems mask line 0 = []
  · rw [applyDownLine_of_empty hg]
    show line = specPackLow mask line (collectTiles mask line)
    rw [collectTiles, hg]
    show line = specPlace mask line ([].map some)
    rw [show (([] : List α).map some) = [] from rfl, ← clearPlayable_spec mask line h,
      collectGems_nil_clear mask line hg]
  · cases hf : firstPlayable mask 0 with
    | none =>
      exact absurd (collectGems_all_false mask line 0
        (firstPlayable_none_all_false mask hf)) hg
    | some w0 =>
      rw [applyDownLine_of_first hg hf, placeGems_bridge,
        ← firstPlayable_skipBlocked mask w0 hf, nextTargets_take, zip_take_len,
        placeAtTargets_grid, map_zip_fst]
      rw [setList_zip_low mask line ((collectGems mask line 0).map Prod.fst) h
        (by rw [List.length_map]; exact collectGems_le_countPlayable mask line)]
      rfl

/-- applyLeft runs the identical per-line pass as applyDown. -/
theorem applyLeftLine_eq_applyDownLine {α : Type} (mask : List Bool)
    (line : List (Option α)) : applyLeftLine mask line = applyDownLine mask line := rfl

/-! ### Gravity: the high-end pass as the mirror image of the low-end pass -/

theorem set_reverse {α : Type} :
    ∀ (l : List α) (i : Nat) (v : α), i < l.length →
      (l.set i v).reverse = l.reverse.set (l.length - 1 - i) v := by
  intro l
  induction l with
  | nil => intro i v h; simp at h
  | cons a l ih =>
    intro i v h
    cases i with
    | zero =>
      show (v :: l).reverse = (a :: l).reverse.set ((a :: l).length - 1 - 0) v
      simp only [List.reverse_cons, List.length_cons]
      rw [List.set_append]
      rw [if_neg (by simp)]
      simp
    | succ i =>
      have hi : i < l.length := by simpa using h
      show (a :: l.set i v).reverse = (a :: l).reverse.set ((a :: l).length - 1 - (i + 1)) v
      simp only [List.reverse_cons, List.length_cons]
      rw [ih i v hi, List.set_append]
      rw [if_pos (by simp; omega)]
      have he : l.length + 1 - 1 - (i + 1) = l.length - 1 - i := by omega
      rw [he]

theorem setList_mirror {α : Type} :
    ∀ (ps : List (α × Nat)) (line : List (Option α)),
      (∀ p ∈ ps, p.2 < line.length) →
      setList line ps =
        (setList line.reverse (ps.map fun p => (p.1, line.length - 1 - p.2))).reverse := by
  intro ps
  induction ps with
  | nil => intro line _; rw [List.map_nil]; exact (List.reverse_reverse _).symm
  | cons p rest ih =>
    intro line hall
    obtain ⟨g, t⟩ := p
    have ht : t < line.length := hall (g, t) (List.mem_cons_self _ _)
    rw [setList_cons, List.map_cons, setList_cons]
    have hlen : (line.set t (some g)).length = line.length := by simp
    rw [ih (line.set t (some g)) (by
      intro q hq
      rw [hlen]
      exact hall q (List.mem_cons_of_mem _ hq))]
    rw [hlen, set_reverse line t (some g) ht]

theorem playableIdxsFrom_append :
    ∀ (xs ys : List Bool) (i : Nat),
      playableIdxsFrom (xs ++ ys) i =
        playableIdxsFrom xs i ++ playableIdxsFrom ys (i + xs.length) := by
  intro xs
  induction xs with
  | nil => intro ys i; rfl
  | cons m ms ih =>
    intro ys i
    show playableIdxsFrom (m :: (ms ++ ys)) i = _
    rw [playableIdxsFrom_cons, playableIdxsFrom_cons, ih ys (i + 1)]
    have he : i + 1 + ms.length = i + (m :: ms).length := by simp; omega
    rw [he]
    cases m with
    | true => simp
    | false => simp

theorem playableIdxsFrom_bound :
    ∀ (mask : List Bool) (i x : Nat), x ∈ playableIdxsFrom mask i →
      i ≤ x ∧ x < i + mask.length := by
  intro mask
  induction mask with
  | nil => intro i x hx; exact absurd hx (by simp [playableIdxsFrom])
  | cons m ms ih =>
    intro i x hx
    rw [playableIdxsFrom_cons] at hx
    cases m with
    | true =>
      rw [if_pos rfl] at hx
      rcases List.mem_cons.mp hx with hx | hx
      · subst hx
        simp
      · have := ih (i + 1) x hx
        constructor
        · omega
        · simp only [List.length_cons]
          omega
    | false =>
      rw [if_neg Bool.false_ne_true] at hx
      have := ih (i + 1) x hx
      constructor
      · omega
      · simp only [List.length_cons]
        omega

theorem playableIdxsFrom_reverse :
    ∀ (mask : List Bool),
      (playableIdxsFrom mask 0).reverse.map (fun t => mask.length - 1 - t) =
        playableIdxsFrom mask.reverse 0 := by
  intro mask
  induction mask with
  | nil => rfl
  | cons m ms ih =>
    rw [List.reverse_cons, playableIdxsFrom_append, playableIdxsFrom_cons,
      playableIdxsFrom_offset ms 1]
    have hrevlen : (0 : Nat) + ms.reverse.length = ms.length := by simp
    rw [hrevlen]
    cases m with
    | true =>
      rw [if_pos rfl]
      show ((0 :: (playableIdxsFrom ms 0).map (· + 1)).reverse.map
        fun t => (true :: ms).length - 1 - t) = _
      rw [List.reverse_cons, List.map_append, List.map_reverse, List.map_map]
      have he1 : ((fun t => (true :: ms).length - 1 - t) ∘ (· + 1)) =
          fun t => ms.length - 1 - t := by
        funext t
        show (true :: ms).length - 1 - (t + 1) = ms.length - 1 - t
        simp only [List.length_cons]
        omega
      rw [he1, ← List.map_reverse, ih]
      have he2 : (true :: ms).length - 1 - 0 = ms.length := by
        simp only [List.length_cons]
        omega
      simp only [List.map_cons, List.map_nil]
      rw [he2]
      have he3 : playableIdxsFrom [true] ms.length = [ms.length] := by
        rw [playableIdxsFrom_cons, if_pos rfl]
        rfl
      rw [he3]
    | false =>
      rw [if_neg Bool.false_ne_true]
      show (((playableIdxsFrom ms 0).map (· + 1)).reverse.map
        fun t => (false :: ms).length - 1 - t) = _
      rw [List.map_reverse, List.map_map]
      have he1 : ((fun t => (false :: ms).length - 1 - t) ∘ (· + 1)) =
          fun t => ms.length - 1 - t := by
        funext t
        show (false :: ms).length - 1 - (t + 1) = ms.length - 1 - t
        simp only [List.length_cons]
        omega
      rw [he1, ← List.map_reverse, ih]
      show playableIdxsFrom ms.reverse 0 = playableIdxsFrom ms.reverse 0 ++ playableIdxsFrom [false] ms.length
      simp [playableIdxsFrom]

theorem clearPlayable_append {α : Type} :
    ∀ (xs : List Bool) (as : List (Option α)) (ys : List Bool) (bs : List (Option α)),
      xs.length = as.length →
      clearPlayable (xs ++ ys) (as ++ bs) = clearPlayable xs as ++ clearPlayable ys bs := by
  intro xs
  induction xs with
  | nil =>
    intro as ys bs h
    cases as with
    | nil => rfl
    | cons a as => exact absurd h (by simp)
  | cons m ms ih =>
    intro as ys bs h
    cases as with
    | nil => exact absurd h (by simp)
    | cons a as =>
      show clearPlayable (m :: (ms ++ ys)) (a :: (as ++ bs)) = _
      rw [clearPlayable_cons, clearPlayable_cons, ih as ys bs (by simpa using h)]
      rfl

theorem clearPlayable_reverse {α : Type} :
    ∀ (mask : List Bool) (line : List (Option α)), mask.length = line.length →
      clearPlayable mask.reverse line.reverse = (clearPlayable mask line).reverse := by
  intro mask
  induction mask with
  | nil =>
    intro line h
    cases line with
    | nil => rfl
    | cons c cs => exact absurd h (by simp)
  | cons m ms ih =>
    intro line h
    cases line with
    | nil => exact absurd h (by simp)
    | cons c cs =>
      have h' : ms.length = cs.length := by simpa using h
      rw [List.reverse_cons, List.reverse_cons,
        clearPlayable_append ms.reverse cs.reverse [m] [c] (by simp [h']),
        ih cs h']
      have hsing : clearPlayable [m] [c] = [if m then none else c] := by
        rw [clearPlayable_cons]
        rfl
      rw [hsing, clearPlayable_cons, List.reverse_cons]

theorem countPlayable_reverse (mask : List Bool) :
    countPlayable mask.reverse = countPlayable mask := by
  unfold countPlayable
  rw [List.filter_reverse]
  simp

/-! ### Gravity: the fused collect-and-clear loop of applyUp and applyRight -/

theorem collectClear_hit {α : Type} {line : List (Option α)} {p : Nat} {g : α}
    (ps : List Nat) (h : getElem? line p = some (some g)) :
    collectClear line (p :: ps) =
      ((g, p) :: (collectClear (line.set p none) ps).1,
        (collectClear (line.set p none) ps).2) := by
  simp only [collectClear, h]

theorem collectClear_miss_none {α : Type} {line : List (Option α)} {p : Nat}
    (ps : List Nat) (h : getElem? line p = none) :
    collectClear line (p :: ps) = collectClear line ps := by
  simp only [collectClear, h]

theorem collectClear_miss_empty {α : Type} {line : List (Option α)} {p : Nat}
    (ps : List Nat) (h : getElem? line p = some none) :
    collectClear line (p :: ps) = collectClear line ps := by
  simp only [collectClear, h]

theorem collectClear_peel {α : Type} :
    ∀ (ps : List Nat) (c : Option α) (cs : List (Option α)),
      collectClear (c :: cs) (ps.map (· + 1)) =
        ((collectClear cs ps).1.map (fun p => (p.1, p.2 + 1)),
          c :: (collectClear cs ps).2) := by
  intro ps
  induction ps with
  | nil => intro c cs; rfl
  | cons p ps ih =>
    intro c cs
    rw [List.map_cons]
    rcases hc : getElem? cs p with _ | cell
    · rw [collectClear_miss_none (ps.map (· + 1)) (by
        show getElem? (c :: cs) (p + 1) = none
        rw [List.getElem?_cons_succ]
        exact hc)]
      rw [collectClear_miss_none ps hc] at *
      exact ih c cs
    · cases cell with
      | none =>
        rw [collectClear_miss_empty (ps.map (· + 1)) (by
          show getElem? (c :: cs) (p + 1) = some none
          rw [List.getElem?_cons_succ]
          exact hc)]
        rw [collectClear_miss_empty ps hc]
        exact ih c cs
      | some g =>
        rw [collectClear_hit (ps.map (· + 1)) (by
          show getElem? (c :: cs) (p + 1) = some (some g)
          rw [List.getElem?_cons_succ]
          exact hc)]
        rw [collectClear_hit ps hc]
        show ((g, p + 1) :: (collectClear ((c :: cs).set (p + 1) none) (ps.map (· + 1))).1, _) = _
        have hset : (c :: cs).set (p + 1) none = c :: cs.set p none := rfl
        rw [hset, ih c (cs.set p none)]
        rfl

theorem collectClear_eq {α : Type} :
    ∀ (mask : List Bool) (line : List (Option α)), mask.length = line.length →
      collectClear line (playableIdxsFrom mask 0) =
        (collectGems mask line 0, clearPlayable mask line) := by
  intro mask
  induction mask with
  | nil =>
    intro line h
    cases line with
    | nil => rfl
    | cons c cs => exact absurd h (by simp)
  | cons m ms ih =>
    intro line h
    cases line with
    | nil => exact absurd h (by simp)
    | cons c cs =>
      have h' : ms.length = cs.length := by simpa using h
      rw [playableIdxsFrom_cons, playableIdxsFrom_offset ms 1]
      cases m with
      | true =>
        rw [if_pos rfl]
        cases c with
        | none =>
          rw [collectClear_miss_empty _ (by simp)]
          rw [collectClear_peel (playableIdxsFrom ms 0) none cs, ih cs h']
          rw [collectGems_none, collectGems_offset ms cs 1, clearPlayable_cons, if_pos rfl]
        | some g =>
          rw [@collectClear_hit α (some g :: cs) 0 g
            ((playableIdxsFrom ms 0).map (· + 1)) (by simp)]
          have hset : (some g :: cs).set 0 none = none :: cs := rfl
          rw [hset, collectClear_peel (playableIdxsFrom ms 0) none cs, ih cs h']
          rw [collectGems_some_true, collectGems_offset ms cs 1, clearPlayable_cons, if_pos rfl]
      | false =>
        rw [if_neg Bool.false_ne_true]
        rw [collectClear_peel (playableIdxsFrom ms 0) c cs, ih cs h']
        rw [clearPlayable_cons, if_neg Bool.false_ne_true]
        cases c with
        | none => rw [collectGems_none, collectGems_offset ms cs 1]
        | some g => rw [collectGems_some_false, collectGems_offset ms cs 1]

theorem clearPlayable_length {α : Type} :
    ∀ (mask : List Bool) (line : List (Option α)),
      (clearPlayable mask line).length = line.length := by
  intro mask
  induction mask with
  | nil => intro line; rfl
  | cons m ms ih =>
    intro line
    cases line with
    | nil => rfl
    | cons c cs =>
      rw [clearPlayable_cons]
      simp [ih cs]

theorem applyUpLine_eq {α : Type} (mask : List Bool) (line : List (Option α)) :
    applyUpLine mask line =
      if (playableIdxsFrom mask 0).isEmpty then (line, false)
      else if (collectClear line (playableIdxsFrom mask 0)).1.isEmpty then
        ((collectClear line (playableIdxsFrom mask 0)).2, false)
      else
        placeAtTargets (collectClear line (playableIdxsFrom mask 0)).2 false
          ((collectClear line (playableIdxsFrom mask 0)).1.zip
            (playableIdxsFrom mask 0).reverse) := rfl

theorem applyRightLine_eq_applyUpLine {α : Type} (mask : List Bool)
    (line : List (Option α)) : applyRightLine mask line = applyUpLine mask line := rfl

theorem specPackHigh_of_all_blocked {α : Type} (mask : List Bool) (line : List (Option α))
    (h : mask.length = line.length) (hg : collectGems mask line 0 = ([] : List (α × Nat))) :
    specPackHigh mask line (collectTiles mask line).reverse = clearPlayable mask line := by
  unfold specPackHigh specPackLow collectTiles
  rw [hg, List.map_nil, List.reverse_nil, List.reverse_nil, List.map_nil,
    ← clearPlayable_spec mask.reverse line.reverse (by simp [h]),
    clearPlayable_reverse mask line h, List.reverse_reverse]

theorem applyUpLine_grid {α : Type} (mask : List Bool) (line : List (Option α))
    (h : mask.length = line.length) :
    (applyUpLine mask line).1 = specPackHigh mask line (collectTiles mask line).reverse := by
  rw [applyUpLine_eq, collectClear_eq mask line h]
  by_cases hp : (playableIdxsFrom mask 0).isEmpty
  · rw [if_pos hp]
    have hall : ∀ m ∈ mask, m = false :=
      playableIdxsFrom_nil_all_false mask (List.isEmpty_iff.mp hp)
    have hg : collectGems mask line 0 = ([] : List (α × Nat)) :=
      collectGems_all_false mask line 0 hall
    rw [specPackHigh_of_all_blocked mask line h hg, collectGems_nil_clear mask line hg]
  · rw [if_neg hp]
    by_cases hgz : (collectGems mask line 0).isEmpty
    · rw [if_pos hgz]
      exact (specPackHigh_of_all_blocked mask line h (List.isEmpty_iff.mp hgz)).symm
    · rw [if_neg hgz]
      rw [placeAtTargets_grid, map_zip_fst]
      have hclen : (clearPlayable mask line).length = line.length := clearPlayable_length mask line
      have hbound : ∀ p ∈ ((collectGems mask line 0).map Prod.fst).zip
          (playableIdxsFrom mask 0).reverse, p.2 < (clearPlayable mask line).length := by
        intro p hpz
        have h2 : p.2 ∈ (playableIdxsFrom mask 0).reverse := (List.of_mem_zip hpz).2
        have h3 : p.2 ∈ playableIdxsFrom mask 0 := List.mem_reverse.mp h2
        have h4 := playableIdxsFrom_bound mask 0 p.2 h3
        rw [hclen, ← h]
        omega
      rw [setList_mirror _ (clearPlayable mask line) hbound]
      rw [hclen, h.symm, map_zip_snd, playableIdxsFrom_reverse,
        ← clearPlayable_reverse mask line h]
      rw [setList_zip_low mask.reverse line.reverse ((collectGems mask line 0).map Prod.fst)
        (by simp [h])
        (by
          rw [countPlayable_reverse, List.length_map]
          exact collectGems_le_countPlayable mask line)]
      unfold specPackHigh specPackLow collectTiles
      rw [List.reverse_reverse]

/-! ### Gravity: collecting from a freshly packed line -/

theorem collectGems_specPlace {α : Type} :
    ∀ (mask : List Bool) (line : List (Option α)) (gs : List α),
      mask.length = line.length → gs.length ≤ countPlayable mask →
      collectGems mask (specPlace mask line (gs.map some)) 0 =
        gs.zip (playableIdxsFrom mask 0) := by
  intro mask
  induction mask with
  | nil =>
    intro line gs h hcnt
    have hz : gs = [] := List.eq_nil_of_length_eq_zero (Nat.le_zero.mp hcnt)
    subst hz
    rw [collectGems_nil_mask]
    rfl
  | cons m ms ih =>
    intro line gs h hcnt
    cases line with
    | nil => exact absurd h (by simp)
    | cons c cs =>
      have h' : ms.length = cs.length := by simpa using h
      cases m with
      | true =>
        cases gs with
        | nil =>
          rw [List.map_nil, specPlace_true_nil, collectGems_none]
          have h0 : collectGems ms (specPlace ms cs []) 0 = [] := by
            have h1 := ih cs [] h' (by simp)
            simpa using h1
          rw [collectGems_offset ms _ 1, h0]
          rfl
        | cons g gs =>
          rw [List.map_cons, specPlace_true_cons, collectGems_some_true,
            collectGems_offset ms _ 1,
            ih cs gs h' (by rw [countPlayable_true, List.length_cons] at hcnt; omega),
            playableIdxsFrom_cons, if_pos rfl, playableIdxsFrom_offset ms 1,
            List.zip_cons_cons, map_zip_snd gs (playableIdxsFrom ms 0) (· + 1)]
      | false =>
        rw [specPlace_false]
        have hcnt' : gs.length ≤ countPlayable ms := by rwa [countPlayable_false] at hcnt
        have htail : collectGems ms (specPlace ms cs (gs.map some)) 1 =
            gs.zip ((playableIdxsFrom ms 0).map (· + 1)) := by
          rw [collectGems_offset ms _ 1, ih cs gs h' hcnt',
            map_zip_snd gs (playableIdxsFrom ms 0) (· + 1)]
        rw [playableIdxsFrom_cons, if_neg Bool.false_ne_true, playableIdxsFrom_offset ms 1]
        cases c with
        | none => rw [collectGems_none, htail]
        | some g => rw [collectGems_some_false, htail]

theorem zip_zip_snd {α β : Type} :
    ∀ (as : List α) (bs : List β) (q : (α × β) × β), q ∈ (as.zip bs).zip bs → q.1.2 = q.2 := by
  intro as
  induction as with
  | nil => intro bs q hq; exact absurd hq (by simp)
  | cons a as ih =>
    intro bs q hq
    cases bs with
    | nil => exact absurd hq (by simp)
    | cons b bs =>
      rw [List.zip_cons_cons, List.zip_cons_cons] at hq
      rcases List.mem_cons.mp hq with hq | hq
      · subst hq; rfl
      · exact ih bs q hq

/-- A second applyDown (or applyLeft) pass straight after a first one
finds every gem already on its target cell: the grid is returned
unchanged and the moved flag is false. -/
theorem applyDownLine_idem {α : Type} (mask : List Bool) (line : List (Option α))
    (h : mask.length = line.length) :
    applyDownLine mask (applyDownLine mask line).1 = ((applyDownLine mask line).1, false) := by
  have hgrid : (applyDownLine mask line).1 =
      specPlace mask line ((collectTiles mask line).map some) := by
    rw [applyDownLine_grid mask line h]
    rfl
  have hcnt : (collectTiles mask line).length ≤ countPlayable mask := by
    rw [collectTiles, List.length_map]
    exact collectGems_le_countPlayable mask line
  have hcoll : collectGems mask (applyDownLine mask line).1 0 =
      (collectTiles mask line).zip (playableIdxsFrom mask 0) := by
    rw [hgrid]
    exact collectGems_specPlace mask line _ h hcnt
  by_cases hT : collectTiles mask line = []
  · have hz : collectGems mask (applyDownLine mask line).1 0 = [] := by
      rw [hcoll, hT]
      rfl
    exact applyDownLine_of_empty hz
  · have hzne : collectGems mask (applyDownLine mask line).1 0 ≠ [] := by
      rw [hcoll]
      intro hz
      apply hT
      have h0 : ((collectTiles mask line).zip (playableIdxsFrom mask 0)).length = 0 := by
        rw [hz]
        rfl
      rw [List.length_zip, playableIdxsFrom_len mask 0] at h0
      have hl0 : (collectTiles mask line).length = 0 := by omega
      exact List.eq_nil_of_length_eq_zero hl0
    cases hf : firstPlayable mask 0 with
    | none =>
      exact absurd (collectGems_all_false mask _ 0
        (firstPlayable_none_all_false mask hf)) hzne
    | some w0 =>
      have h2 : mask.length = (applyDownLine mask line).1.length := by
        rw [hgrid, specPlace_len mask line _ h]
        exact h
      rw [applyDownLine_of_first hzne hf, placeGems_bridge,
        ← firstPlayable_skipBlocked mask w0 hf, nextTargets_take, hcoll, zip_take_len]
      have hmoved : (placeAtTargets (clearPlayable mask (applyDownLine mask line).1) false
          (((collectTiles mask line).zip (playableIdxsFrom mask 0)).zip
            (playableIdxsFrom mask 0))).2 = false := by
        apply placeAtTargets_moved_noop
        intro q hq
        exact zip_zip_snd _ _ q hq
      have hfst : (placeAtTargets (clearPlayable mask (applyDownLine mask line).1) false
          (((collectTiles mask line).zip (playableIdxsFrom mask 0)).zip
            (playableIdxsFrom mask 0))).1 = (applyDownLine mask line).1 := by
        rw [placeAtTargets_grid, map_zip_fst,
          List.map_fst_zip _ _ (by rw [playableIdxsFrom_len mask 0]; exact hcnt),
          setList_zip_low mask (applyDownLine mask line).1 (collectTiles mask line)
            h2 hcnt]
        rw [hgrid]
        exact specPlace_specPlace mask line _ _ h
      exact Prod.ext hfst hmoved

/-! ### Gravity: tile conservation -/

theorem gemsOf_nil {α : Type} : gemsOf ([] : List (Option α)) = [] := rfl

theorem gemsOf_some {α : Type} (g : α) (cs : List (Option α)) :
    gemsOf (some g :: cs) = g :: gemsOf cs := by
  simp [gemsOf]

theorem gemsOf_none {α : Type} (cs : List (Option α)) :
    gemsOf (none :: cs) = gemsOf cs := by
  simp [gemsOf]

theorem gemsOf_reverse {α : Type} (line : List (Option α)) :
    gemsOf line.reverse = (gemsOf line).reverse := by
  simp [gemsOf, List.filterMap_reverse]

theorem collectTiles_map_fst {α : Type} (ms : List Bool) (cs : List (Option α)) :
    (collectGems ms cs 1).map Prod.fst = collectTiles ms cs := by
  rw [collectGems_offset ms cs 1, List.map_map]
  rfl

theorem collectTiles_true_some {α : Type} (ms : List Bool) (g : α) (cs : List (Option α)) :
    collectTiles (true :: ms) (some g :: cs) = g :: collectTiles ms cs := by
  rw [collectTiles, collectGems_some_true, List.map_cons, collectTiles_map_fst]

theorem collectTiles_false_some {α : Type} (ms : List Bool) (g : α) (cs : List (Option α)) :
    collectTiles (false :: ms) (some g :: cs) = collectTiles ms cs := by
  rw [collectTiles, collectGems_some_false, collectTiles_map_fst]

theorem collectTiles_none {α : Type} (m : Bool) (ms : List Bool) (cs : List (Option α)) :
    collectTiles (m :: ms) (none :: cs) = collectTiles ms cs := by
  rw [collectTiles, collectGems_none, collectTiles_map_fst]

theorem blockedGems_true {α : Type} (ms : List Bool) (c : Option α) (cs : List (Option α)) :
    blockedGems (true :: ms) (c :: cs) = blockedGems ms cs := rfl

theorem blockedGems_false_some {α : Type} (ms : List Bool) (g : α) (cs : List (Option α)) :
    blockedGems (false :: ms) (some g :: cs) = g :: blockedGems ms cs := rfl

theorem blockedGems_false_none {α : Type} (ms : List Bool) (cs : List (Option α)) :
    blockedGems (false :: ms) (none :: cs) = blockedGems ms cs := rfl

/-- The gems of a line split into the collected playable-cell gems and
the gems stuck on blocked cells. -/
theorem gemsOf_split_perm {α : Type} :
    ∀ (mask : List Bool) (line : List (Option α)), mask.length = line.length →
      (gemsOf line).Perm (collectTiles mask line ++ blockedGems mask line) := by
  intro mask
  induction mask with
  | nil =>
    intro line h
    cases line with
    | nil => exact List.Perm.refl _
    | cons c cs => exact absurd h (by simp)
  | cons m ms ih =>
    intro line h
    cases line with
    | nil => exact absurd h (by simp)
    | cons c cs =>
      have h' : ms.length = cs.length := by simpa using h
      cases m with
      | true =>
        cases c with
        | none =>
          rw [gemsOf_none, collectTiles_none, blockedGems_true]
          exact ih cs h'
        | some g =>
          rw [gemsOf_some, collectTiles_true_some, blockedGems_true, List.cons_append]
          exact (ih cs h').cons g
      | false =>
        cases c with
        | none =>
          rw [gemsOf_none, collectTiles_none, blockedGems_false_none]
          exact ih cs h'
        | some g =>
          rw [gemsOf_some, collectTiles_false_some, blockedGems_false_some]
          exact ((ih cs h').cons g).trans List.perm_middle.symm

/-- The gems of a packed line are the packed tiles plus the gems stuck
on blocked cells. -/
theorem gemsOf_specPlace_perm {α : Type} :
    ∀ (mask : List Bool) (line : List (Option α)) (gs : List α),
      mask.length = line.length → gs.length ≤ countPlayable mask →
      (gemsOf (specPlace mask line (gs.map some))).Perm (gs ++ blockedGems mask line) := by
  intro mask
  induction mask with
  | nil =>
    intro line gs h hcnt
    have hz : gs = [] := List.eq_nil_of_length_eq_zero (Nat.le_zero.mp hcnt)
    subst hz
    cases line with
    | nil => exact List.Perm.refl _
    | cons c cs => exact absurd h (by simp)
  | cons m ms ih =>
    intro line gs h hcnt
    cases line with
    | nil => exact absurd h (by simp)
    | cons c cs =>
      have h' : ms.length = cs.length := by simpa using h
      cases m with
      | true =>
        cases gs with
        | nil =>
          rw [List.map_nil, specPlace_true_nil, gemsOf_none, blockedGems_true]
          have h0 := ih cs [] h' (by simp)
          simpa using h0
        | cons g gs =>
          rw [List.map_cons, specPlace_true_cons, gemsOf_some, blockedGems_true,
            List.cons_append]
          exact (ih cs gs h'
            (by rw [countPlayable_true, List.length_cons] at hcnt; omega)).cons g
      | false =>
        have hcnt' : gs.length ≤ countPlayable ms := by rwa [countPlayable_false] at hcnt
        rw [specPlace_false]
        cases c with
        | none =>
          rw [gemsOf_none, blockedGems_false_none]
          exact ih cs gs h' hcnt'
        | some g =>
          rw [gemsOf_some, blockedGems_false_some]
          exact ((ih cs gs h' hcnt').cons g).trans List.perm_middle.symm

theorem blockedGems_append {α : Type} :
    ∀ (xs : List Bool) (as : List (Option α)) (ys : List Bool) (bs : List (Option α)),
      xs.length = as.length →
      blockedGems (xs ++ ys) (as ++ bs) = blockedGems xs as ++ blockedGems ys bs := by
  intro xs
  induction xs with
  | nil =>
    intro as ys bs h
    cases as with
    | nil => rfl
    | cons a as => exact absurd h (by simp)
  | cons m ms ih =>
    intro as ys bs h
    cases as with
    | nil => exact absurd h (by simp)
    | cons a as =>
      have h' : ms.length = as.length := by simpa using h
      cases m with
      | true =>
        show blockedGems (true :: (ms ++ ys)) (a :: (as ++ bs)) = _
        rw [blockedGems_true, blockedGems_true, ih as ys bs h']
      | false =>
        cases a with
        | none =>
          show blockedGems (false :: (ms ++ ys)) (none :: (as ++ bs)) = _
          rw [blockedGems_false_none, blockedGems_false_none, ih as ys bs h']
        | some g =>
          show blockedGems (false :: (ms ++ ys)) (some g :: (as ++ bs)) = _
          rw [blockedGems_false_some, blockedGems_false_some, ih as ys bs h']
          rfl

theorem blockedGems_reverse {α : Type} :
    ∀ (mask : List Bool) (line : List (Option α)), mask.length = line.length →
      blockedGems mask.reverse line.reverse = (blockedGems mask line).reverse := by
  intro mask
  induction mask with
  | nil =>
    intro line h
    cases line with
    | nil => rfl
    | cons c cs => exact absurd h (by simp)
  | cons m ms ih =>
    intro line h
    cases line with
    | nil => exact absurd h (by simp)
    | cons c cs =>
      have h' : ms.length = cs.length := by simpa using h
      rw [List.reverse_cons, List.reverse_cons,
        blockedGems_append ms.reverse cs.reverse [m] [c] (by simp [h']),
        ih cs h']
      cases m with
      | true =>
        have hb : blockedGems [true] [c] = ([] : List α) := rfl
        rw [hb, List.append_nil, blockedGems_true]
      | false =>
        cases c with
        | none =>
          have hb : blockedGems [false] [(none : Option α)] = ([] : List α) := rfl
          rw [hb, List.append_nil, blockedGems_false_none]
        | some g =>
          have hb : blockedGems [false] [some g] = [g] := rfl
          rw [hb, blockedGems_false_some, List.reverse_cons]

/-- One applyDown (or applyLeft) pass permutes the gems of the line:
nothing is created or destroyed. -/
theorem applyDownLine_perm {α : Type} (mask : List Bool) (line : List (Option α))
    (h : mask.length = line.length) :
    (gemsOf (applyDownLine mask line).1).Perm (gemsOf line) := by
  have hcnt : (collectTiles mask line).length ≤ countPlayable mask := by
    rw [collectTiles, List.length_map]
    exact collectGems_le_countPlayable mask line
  have hgrid : (applyDownLine mask line).1 =
      specPlace mask line ((collectTiles mask line).map some) := by
    rw [applyDownLine_grid mask line h]
    rfl
  rw [hgrid]
  exact (gemsOf_specPlace_perm mask line (collectTiles mask line) h hcnt).trans
    (gemsOf_split_perm mask line h).symm

/-- One applyUp (or applyRight) pass permutes the gems of the line:
nothing is created or destroyed. -/
theorem applyUpLine_perm {α : Type} (mask : List Bool) (line : List (Option α))
    (h : mask.length = line.length) :
    (gemsOf (applyUpLine mask line).1).Perm (gemsOf line) := by
  have hcnt : ((collectTiles mask line).reverse.reverse).length ≤ countPlayable mask.reverse := by
    rw [countPlayable_reverse, List.reverse_reverse, collectTiles, List.length_map]
    exact collectGems_le_countPlayable mask line
  have hgrid : (applyUpLine mask line).1 =
      (specPlace mask.reverse line.reverse
        (((collectTiles mask line).reverse.reverse).map some)).reverse := by
    rw [applyUpLine_grid mask line h]
    rfl
  rw [hgrid, gemsOf_reverse]
  refine ((gemsOf (specPlace mask.reverse line.reverse
    (((collectTiles mask line).reverse.reverse).map some))).reverse_perm).trans ?_
  refine (gemsOf_specPlace_perm mask.reverse line.reverse
    ((collectTiles mask line).reverse.reverse) (by simp [h]) hcnt).trans ?_
  rw [List.reverse_reverse, blockedGems_reverse mask line h]
  refine (List.Perm.append_left (collectTiles mask line)
    (blockedGems mask line).reverse_perm).trans ?_
  exact (gemsOf_split_perm mask line h).symm

/-- A whole-board pass built from a per-line pass relates each line of
the result to the same line of the input board. -/
theorem applyLineBoard_forall2 {α : Type}
    (pass : List Bool → List (Option α) → List (Option α) × Bool)
    (hpass : ∀ (mask : List Bool) (line : List (Option α)),
      mask.length = line.length → (gemsOf (pass mask line).1).Perm (gemsOf line)) :
    ∀ (masks : List (List Bool)) (board : List (List (Option α))),
      masks.length = board.length →
      (∀ p ∈ masks.zip board, p.1.length = p.2.length) →
      List.Forall₂ (fun l l' => (gemsOf l').Perm (gemsOf l) ∧
          (gemsOf l').length = (gemsOf l).length)
        board (applyLineBoard pass masks board).1 := by
  intro masks
  induction masks with
  | nil =>
    intro board h1 h2
    cases board with
    | nil => exact List.Forall₂.nil
    | cons l ls => exact absurd h1 (by simp)
  | cons m ms ih =>
    intro board h1 h2
    cases board with
    | nil => exact absurd h1 (by simp)
    | cons l ls =>
      have hml : m.length = l.length := h2 (m, l) (by simp)
      have hperm := hpass m l hml
      show List.Forall₂ _ (l :: ls)
        ((((m, l) :: ms.zip ls).map fun p => pass p.1 p.2).map Prod.fst)
      rw [List.map_cons, List.map_cons]
      exact List.Forall₂.cons ⟨hperm, hperm.length_eq⟩
        (ih ls (by simpa using h1) (fun p hp => h2 p (List.mem_cons_of_mem _ hp)))

/-- C1: corrected. One gravity pass on a line (column for Down/Up, row
for Left/Right) collects the tiles of the playable cells in line order
and re-packs them over the playable cells, blocked cells skipped and
untouched; Down and Left pack against the low-index end in the tiles'
original relative order, but Up and Right place gems[i] at
playableCells[last - i], so they pack against the high-index end with
the relative order REVERSED, not preserved as the claim states. -/
theorem gravity_pack_order (mask : List Bool) (line : List (Option Gem))
    (h : mask.length = line.length) :
    (applyDownLine mask line).1 = specPackLow mask line (collectTiles mask line) ∧
    (applyLeftLine mask line).1 = specPackLow mask line (collectTiles mask line) ∧
    (applyUpLine mask line).1 = specPackHigh mask line (collectTiles mask line).reverse ∧
    (applyRightLine mask line).1 = specPackHigh mask line (collectTiles mask line).reverse := by
  refine ⟨applyDownLine_grid mask line h, ?_, applyUpLine_grid mask line h, ?_⟩
  · rw [applyLeftLine_eq_applyDownLine]
    exact applyDownLine_grid mask line h
  · rw [applyRightLine_eq_applyUpLine]
    exact applyUpLine_grid mask line h

/-- C1 counterexample: a fully playable 2-cell line holding tiles A, B;
the claimed order-preserving high-end packing would leave A, B in
place, but applyUp produces B, A. -/
theorem gravity_pack_order_cex :
    (applyUpLine [true, true] [some (Gem.mk 0), some (Gem.mk 1)]).1 ≠
      specPackHigh [true, true] [some (Gem.mk 0), some (Gem.mk 1)]
        (collectTiles [true, true] [some (Gem.mk 0), some (Gem.mk 1)]) := by decide

/-- C1 witness: the four-direction packing characterization evaluated
on the mask true,false,true,true line. -/
theorem gravity_pack_order_witness :
    c1Mask.length = c1Line.length ∧
      ((applyDownLine c1Mask c1Line).1 = specPackLow c1Mask c1Line (collectTiles c1Mask c1Line) ∧
       (applyLeftLine c1Mask c1Line).1 = specPackLow c1Mask c1Line (collectTiles c1Mask c1Line) ∧
       (applyUpLine c1Mask c1Line).1 =
         specPackHigh c1Mask c1Line (collectTiles c1Mask c1Line).reverse ∧
       (applyRightLine c1Mask c1Line).1 =
         specPackHigh c1Mask c1Line (collectTiles c1Mask c1Line).reverse) :=
  ⟨by decide, gravity_pack_order c1Mask c1Line (by decide)⟩

/-- C7: corrected. An immediately repeated pass is idempotent for Down
and Left (same grid back, moved = false), as the claim says and as its
height-5 Down example shows; but NOT for Up and Right: those reverse
the packed tiles on every pass, so a second pass moves gems again. -/
theorem gravity_second_pass_no_move (mask : List Bool) (line : List (Option Gem))
    (h : mask.length = line.length) :
    applyDownLine mask (applyDownLine mask line).1 = ((applyDownLine mask line).1, false) ∧
    applyLeftLine mask (applyLeftLine mask line).1 = ((applyLeftLine mask line).1, false) := by
  refine ⟨applyDownLine_idem mask line h, ?_⟩
  rw [applyLeftLine_eq_applyDownLine, applyLeftLine_eq_applyDownLine]
  exact applyDownLine_idem mask line h

/-- C7 counterexample: on an all-playable height-3 column holding two
gems, the pass just completed is applyUp; repeating it reverses the two
gems again, so it does not report moved = false with the grid fixed. -/
theorem gravity_second_pass_no_move_cex :
    applyUpLine [true, true, true]
        (applyUpLine [true, true, true] [some (Gem.mk 0), some (Gem.mk 1), none]).1 ≠
      ((applyUpLine [true, true, true] [some (Gem.mk 0), some (Gem.mk 1), none]).1, false) := by
  decide

/-- C7 witness: Down/Left idempotence evaluated on the claim's height-5
column with tiles at rows 0, 2, 4. -/
theorem gravity_second_pass_no_move_witness :
    c7Mask.length = c7Line.length ∧
      (applyDownLine c7Mask (applyDownLine c7Mask c7Line).1 =
          ((applyDownLine c7Mask c7Line).1, false) ∧
        applyLeftLine c7Mask (applyLeftLine c7Mask c7Line).1 =
          ((applyLeftLine c7Mask c7Line).1, false)) :=
  ⟨by decide, gravity_second_pass_no_move c7Mask c7Line (by decide)⟩

/-- C10: confirmed. A whole-board gravity pass in any of the four
directions maps each line of the board to a permutation of that same
line's gems: no tile is created or destroyed, the occupied-cell count
of every line (hence of the board) is unchanged, and every tile stays
in its own line (its column for Down/Up, its row for Left/Right); and
the placement loop never runs out of playable cells, because a line's
collected gems never outnumber its playable cells. -/
theorem gravity_preserves_tiles (masks : List (List Bool)) (board : List (List (Option Gem)))
    (h1 : masks.length = board.length)
    (h2 : ∀ p ∈ masks.zip board, p.1.length = p.2.length) :
    (∀ pass ∈ ([applyDownLine, applyLeftLine, applyUpLine, applyRightLine] :
        List (List Bool → List (Option Gem) → List (Option Gem) × Bool)),
      List.Forall₂ (fun l l' => (gemsOf l').Perm (gemsOf l) ∧
          (gemsOf l').length = (gemsOf l).length)
        board (applyLineBoard pass masks board).1) ∧
    (∀ (mask : List Bool) (line : List (Option Gem)),
      (collectGems mask line 0).length ≤ countPlayable mask) := by
  constructor
  · intro pass hpass
    simp only [List.mem_cons, List.not_mem_nil, or_false] at hpass
    rcases hpass with hp | hp | hp | hp
    · subst hp
      exact applyLineBoard_forall2 applyDownLine applyDownLine_perm masks board h1 h2
    · subst hp
      refine applyLineBoard_forall2 applyLeftLine ?_ masks board h1 h2
      intro mask line hml
      rw [applyLeftLine_eq_applyDownLine]
      exact applyDownLine_perm mask line hml
    · subst hp
      exact applyLineBoard_forall2 applyUpLine applyUpLine_perm masks board h1 h2
    · subst hp
      refine applyLineBoard_forall2 applyRightLine ?_ masks board h1 h2
      intro mask line hml
      rw [applyRightLine_eq_applyUpLine]
      exact applyUpLine_perm mask line hml
  · intro mask line
    exact collectGems_le_countPlayable mask line

/-- C10 witness: tile preservation evaluated on a one-row masked
board. -/
theorem gravity_preserves_tiles_witness :
    c10Masks.length = c10Board.length ∧
      (∀ p ∈ c10Masks.zip c10Board, p.1.length = p.2.length) ∧
      ((∀ pass ∈ ([applyDownLine, applyLeftLine, applyUpLine, applyRightLine] :
          List (List Bool → List (Option Gem) → List (Option Gem) × Bool)),
        List.Forall₂ (fun l l' => (gemsOf l').Perm (gemsOf l) ∧
            (gemsOf l').length = (gemsOf l).length)
          c10Board (applyLineBoard pass c10Masks c10Board).1) ∧
      (∀ (mask : List Bool) (line : List (Option Gem)),
        (collectGems mask line 0).length ≤ countPlayable mask)) :=
  ⟨rfl, by decide, gravity_preserves_tiles c10Masks c10Board rfl (by decide)⟩

end Match3
